import Mathlib

/-!
Shallow embedding of the pyraptor core model
(pyraptor/model/structures.py, pyraptor/model/mcraptor.py,
pyraptor/model/algos/base.py, pyraptor/model/shared_mobility.py)
together with proofs about its Pareto filtering, bag merging, round
engine, transfer generation and journey reconstruction.

Conventions:
- times in seconds are embedded as integers, money/distance/cost values
  as rationals;
- Python dictionaries keyed by objects whose equality is
  `same_type_and_id` are embedded as association lists over ids;
- functions that can raise in Python are embedded with `Except`/`Option`
  where the raising behaviour is the object of a claim; a few lookups
  that cannot fail on well-formed timetables are totalised with default
  values, which is noted locally.
-/

namespace PyRaptor

/-- TransportType enum of structures.py (walk/bike/car/electric bike plus
the GTFS route types). -/
inductive TransportType where
  | walk
  | bike
  | car
  | electricBike
  | lightRail
  | metro
  | rail
  | bus
  | ferry
  | cableTram
  | aerialLift
  | funicular
  | trolleyBus
  | monorail
deriving DecidableEq, Repr

/-- Stop of structures.py. Python compares stops and stations via
`same_type_and_id`, so a stop is embedded as its id plus the id of its
parent station. -/
structure Stop where
  id : ℕ
  stationId : ℕ
deriving DecidableEq, Repr

/-- Identity of a Trip. Python's `same_type_and_id` distinguishes the
class `Trip` (timetable trips, integer ids assigned by `Trips.add`) from
the class `TransferTrip` (synthetic trips whose id embeds a `uuid4`
value); the constructor encodes the class, the argument the id. -/
inductive TripId where
  | sched (n : ℕ)
  | transfer (n : ℕ)
deriving DecidableEq, Repr

/-- TripStopTime of structures.py: stop, arrival/departure seconds, fare
and cumulative travelled distance in km. -/
structure TripStopTime where
  stop : Stop
  dts_arr : ℤ
  dts_dep : ℤ
  fare : ℤ := 0
  travelled_distance : ℚ := 0
deriving DecidableEq, Repr

/-- Trip of structures.py: id, the transport type of its route info, and
its ordered stop times. -/
structure Trip where
  id : TripId
  transport_type : TransportType
  stop_times : List TripStopTime
deriving DecidableEq, Repr

/-- Trip.get_stop_time: Python indexes `stop_times_index[stop]`, a dict
built by successive insertion, so for duplicated stops the last
occurrence wins; hence the reversed search. Returns none where Python
raises a KeyError. -/
def Trip.get_stop_time (t : Trip) (s : Stop) : Option TripStopTime :=
  t.stop_times.reverse.find? (fun tst => decide (tst.stop = s))

/-- Total variant of `Trip.get_stop_time` used inside the round engine,
where Python would crash on a malformed timetable instead of returning;
lookups are totalised with a default stop time. -/
def Trip.get_stop_time_d (t : Trip) (s : Stop) : TripStopTime :=
  (t.get_stop_time s).getD { stop := s, dts_arr := 0, dts_dep := 0 }

/-- Trip.get_fare of structures.py: fare of the stop time at the given
stop (0 when the stop time is missing, matching the `None` branch). -/
def Trip.get_fare (t : Trip) (s : Stop) : ℤ :=
  ((t.get_stop_time s).map (fun tst => tst.fare)).getD 0

/-- Transfer of structures.py: directed edge with a time cost in
seconds. -/
structure Transfer where
  from_stop : Stop
  to_stop : Stop
  transfer_time : ℤ
deriving DecidableEq, Repr

/- ------------------------------------------------------------------
pareto_set (structures.py lines 1690-1720) and Bag.

The source computes `label_costs = np.array([label.total_cost ...])`, a
one-dimensional array of scalars, so `np.any(... , axis=0)` reduces to a
single boolean that is then broadcast over every currently-efficient
position.  The embedding is generic in the label type; the `cost`
parameter embeds `label.total_cost`.
------------------------------------------------------------------ -/

/-- Embeds `np.any(label_costs[is_efficient] < cost, axis=0)` for the
one-dimensional `label_costs`: true iff some currently-efficient entry
has cost strictly below `c`. -/
def anyLowerCost [LinearOrder β] (costs : List β) (eff : List Bool) (c : β) : Bool :=
  (costs.zip eff).any (fun p => p.2 && decide (p.1 < c))

/-- Embeds `np.all(label_costs[is_efficient] == cost, axis=0)`: true iff
every currently-efficient entry has cost equal to `c`. -/
def allEqualCost [LinearOrder β] (costs : List β) (eff : List Bool) (c : β) : Bool :=
  (costs.zip eff).all (fun p => !p.2 || decide (p.1 = c))

/-- One iteration of the `for i, cost in enumerate(label_costs)` loop of
pareto_set: if entry `i` is still efficient, assign the broadcast scalar
to every efficient position (`is_efficient[is_efficient] = ...`) and
then re-set entry `i` (`is_efficient[i] = True`). -/
def paretoStep [LinearOrder β] [Inhabited β] (keep_equal : Bool) (costs : List β)
    (eff : List Bool) (i : ℕ) : List Bool :=
  if eff.getD i false then
    let c := costs.getD i default
    let keep := anyLowerCost costs eff c || (keep_equal && allEqualCost costs eff c)
    (eff.map (fun b => b && keep)).set i true
  else eff

/-- pareto_set of structures.py, generic in the label type; `cost`
embeds `total_cost`. The result keeps the labels whose efficiency flag
survived the loop (`compress(labels, is_efficient)`). -/
def pareto_set [LinearOrder β] [Inhabited β] (cost : α → β) (keep_equal : Bool)
    (labels : List α) : List α :=
  let costs := labels.map cost
  let eff := (List.range labels.length).foldl (paretoStep keep_equal costs)
    (List.replicate labels.length true)
  ((labels.zip eff).filter (fun p => p.2)).map (fun p => p.1)

/-- Bag of structures.py: a list of labels plus the `updated` flag. -/
structure Bag (α : Type) where
  labels : List α := []
  updated : Bool := false
deriving DecidableEq, Repr

/-- Bag.merge of structures.py: Pareto-filter the concatenation of both
label lists and record whether the result differs from the receiver's
list. -/
def Bag.merge [DecidableEq α] [LinearOrder β] [Inhabited β] (cost : α → β)
    (b other : Bag α) : Bag α :=
  let pareto_labels := b.labels ++ other.labels
  if pareto_labels.isEmpty then { labels := [], updated := false }
  else
    let pareto_labels := pareto_set cost false pareto_labels
    { labels := pareto_labels, updated := decide (pareto_labels ≠ b.labels) }

/-- Bag.add of structures.py (list append). -/
def Bag.add (b : Bag α) (l : α) : Bag α :=
  { b with labels := b.labels ++ [l] }

/-- First label of the list whose cost is minimal: the first label whose
cost is less than or equal to the cost of every label of the list. -/
def firstMinBy [LinearOrder β] (cost : α → β) (labels : List α) : Option α :=
  labels.find? (fun l => labels.all (fun m => decide (cost l ≤ cost m)))

/- ------------------------------------------------------------------
Characterisation of pareto_set with keep_equal = False: it returns the
singleton holding the first label of minimal total cost.
------------------------------------------------------------------ -/

theorem exists_min_cost [LinearOrder β] (cost : α → β) (labels : List α) (h : labels ≠ []) :
    ∃ l ∈ labels, ∀ m ∈ labels, cost l ≤ cost m := by
  induction labels with
  | nil => exact absurd rfl h
  | cons a t ih =>
    rcases t.eq_nil_or_concat.symm with ht | ht
    · obtain ⟨l, hl, hmin⟩ := ih (by rcases ht with ⟨t0, x, rfl⟩; simp)
      by_cases hc : cost a ≤ cost l
      · exact ⟨a, by simp, by
          intro m hm
          rcases List.mem_cons.mp hm with rfl | hm
          · exact le_refl _
          · exact le_trans hc (hmin m hm)⟩
      · exact ⟨l, List.mem_cons_of_mem _ hl, by
          intro m hm
          rcases List.mem_cons.mp hm with rfl | hm
          · exact le_of_lt (lt_of_not_le hc)
          · exact hmin m hm⟩
    · subst ht
      exact ⟨a, by simp, by intro m hm; simp at hm; simp [hm]⟩

theorem find?_eq_getElem_findIdx (p : α → Bool) (l : List α)
    (h : l.findIdx p < l.length) : l.find? p = some (l.get ⟨l.findIdx p, h⟩) := by
  induction l with
  | nil => simp at h
  | cons a t ih =>
    by_cases hp : p a
    · simp [List.find?, hp, List.findIdx_cons]
    · have hfi : (a :: t).findIdx p = t.findIdx p + 1 := by
        simp [List.findIdx_cons, hp]
      have ht : t.findIdx p < t.length := by
        have := h; rw [hfi] at this; simpa using this
      have := ih ht
      simp only [List.find?, hp, hfi]
      simpa using this

theorem replicate_getD_true {n i : ℕ} (h : i < n) :
    (List.replicate n true).getD i false = true := by
  rw [List.getD_eq_getElem _ _ (by simpa using h)]
  exact List.getElem_replicate _ _

/-- Before the first index of minimal cost, every step of the
pareto_set loop leaves the all-true efficiency mask unchanged. -/
theorem paretoStep_before [LinearOrder β] [Inhabited β] (cost : α → β) (labels : List α) (j i : ℕ)
    (hj : j < labels.length) (hi : i < labels.length)
    (hlt : cost (labels.get ⟨j, hj⟩) < cost (labels.get ⟨i, hi⟩)) :
    paretoStep false (labels.map cost)
      (List.replicate labels.length true) i =
      List.replicate labels.length true := by
  have hcl : (labels.map cost).length = labels.length := labels.length_map cost
  unfold paretoStep
  rw [replicate_getD_true hi]
  simp only [if_true]
  have hci : (labels.map cost).getD i default = cost (labels.get ⟨i, hi⟩) := by
    rw [List.getD_eq_getElem _ _ (by rw [hcl]; exact hi)]
    simp [List.getElem_map]
  have hany : anyLowerCost (labels.map cost) (List.replicate labels.length true)
      ((labels.map cost).getD i default) = true := by
    apply List.any_eq_true.mpr
    refine ⟨(cost (labels.get ⟨j, hj⟩), true), ?_, ?_⟩
    · have hz : j < (((labels.map cost)).zip (List.replicate labels.length true)).length := by
        rw [List.length_zip, hcl, List.length_replicate]
        simpa using hj
      have hjc : j < (labels.map cost).length := by
        rw [hcl]
        exact hj
      have hjr : j < (List.replicate labels.length true).length := by
        simpa using hj
      have : (((labels.map cost)).zip (List.replicate labels.length true))[j] =
          ((labels.map cost)[j], (List.replicate labels.length true)[j]) :=
        List.getElem_zip
      rw [List.getElem_map] at this
      rw [List.getElem_replicate] at this
      exact this ▸ List.getElem_mem hz
    · simp only [Bool.true_and, decide_eq_true_eq]
      rw [hci]
      exact hlt
  rw [hany]
  simp only [Bool.true_or, Bool.and_true, List.map_id']
  exact List.set_replicate_self

/-- At the first index of minimal cost, the pareto_set loop wipes the
mask and re-sets only that index. -/
theorem paretoStep_at_min [LinearOrder β] [Inhabited β] (cost : α → β) (labels : List α) (j : ℕ)
    (hj : j < labels.length)
    (hmin : ∀ i (hi : i < labels.length),
      cost (labels.get ⟨j, hj⟩) ≤ cost (labels.get ⟨i, hi⟩)) :
    paretoStep false (labels.map cost)
      (List.replicate labels.length true) j =
      (List.replicate labels.length false).set j true := by
  have hcl : (labels.map cost).length = labels.length := labels.length_map cost
  unfold paretoStep
  rw [replicate_getD_true hj]
  simp only [if_true]
  have hcj : (labels.map cost).getD j default = cost (labels.get ⟨j, hj⟩) := by
    rw [List.getD_eq_getElem _ _ (by rw [hcl]; exact hj)]
    simp [List.getElem_map]
  have hany : anyLowerCost (labels.map cost) (List.replicate labels.length true)
      ((labels.map cost).getD j default) = false := by
    rw [Bool.eq_false_iff]
    intro hcontra
    obtain ⟨x, hxmem, hx⟩ := List.any_eq_true.mp hcontra
    obtain ⟨i, hiz, hieq⟩ := List.getElem_of_mem hxmem
    have hizl : i < labels.length := by
      rw [List.length_zip, hcl, List.length_replicate] at hiz
      simpa using hiz
    have hic : i < (labels.map cost).length := by
      rw [hcl]
      exact hizl
    have hir : i < (List.replicate labels.length true).length := by
      simpa using hizl
    have : x = ((labels.map cost)[i], (List.replicate labels.length true)[i]) := by
      rw [← hieq]; exact List.getElem_zip
    rw [List.getElem_map, List.getElem_replicate] at this
    subst this
    simp only [Bool.true_and, decide_eq_true_eq] at hx
    rw [hcj] at hx
    exact absurd hx (not_lt.mpr (hmin i hizl))
  rw [hany]
  simp only [Bool.false_or, Bool.and_false, Bool.false_and]
  rw [List.map_const']
  rw [List.length_replicate]

/-- Once the mask holds only the first minimal index, every later step
of the pareto_set loop is the identity. -/
theorem paretoStep_after [LinearOrder β] [Inhabited β] (keep_equal : Bool) (costs : List β) (n j i : ℕ)
    (hne : i ≠ j) :
    paretoStep keep_equal costs ((List.replicate n false).set j true) i =
      (List.replicate n false).set j true := by
  unfold paretoStep
  have hoff : ((List.replicate n false).set j true).getD i false = false := by
    by_cases hi : i < n
    · rw [List.getD_eq_getElem _ _ (by simpa using hi)]
      rw [List.getElem_set_ne (fun h => hne h.symm)]
      exact List.getElem_replicate _ _
    · exact List.getD_eq_default _ _ (by simpa using not_lt.mp hi)
  rw [hoff]
  simp

/-- Folding the pareto_set loop over all indices leaves exactly the
first index of minimal cost efficient. -/
theorem paretoFold_eq [LinearOrder β] [Inhabited β] (cost : α → β) (labels : List α) (j : ℕ)
    (hj : j < labels.length)
    (hmin : ∀ i (hi : i < labels.length),
      cost (labels.get ⟨j, hj⟩) ≤ cost (labels.get ⟨i, hi⟩))
    (hfirst : ∀ i (hi : i < labels.length), i < j →
      cost (labels.get ⟨j, hj⟩) < cost (labels.get ⟨i, hi⟩)) :
    (List.range labels.length).foldl (paretoStep false (labels.map cost))
      (List.replicate labels.length true) =
      (List.replicate labels.length false).set j true := by
  have phase1 : ∀ k, k ≤ j →
      (List.range k).foldl (paretoStep false (labels.map cost))
        (List.replicate labels.length true) =
        List.replicate labels.length true := by
    intro k hk
    induction k with
    | zero => simp
    | succ m ih =>
      rw [List.range_succ, List.foldl_append, ih (le_of_lt (Nat.lt_of_succ_le hk))]
      simp only [List.foldl_cons, List.foldl_nil]
      exact paretoStep_before cost labels j m hj
        (lt_of_lt_of_le (Nat.lt_of_succ_le hk) (le_of_lt hj))
        (hfirst m _ (Nat.lt_of_succ_le hk))
  have phase2 : ∀ k, j < k → k ≤ labels.length →
      (List.range k).foldl (paretoStep false (labels.map cost))
        (List.replicate labels.length true) =
        (List.replicate labels.length false).set j true := by
    intro k hk hkn
    induction k with
    | zero => omega
    | succ m ih =>
      rw [List.range_succ, List.foldl_append]
      by_cases hm : j < m
      · rw [ih hm (le_of_lt (Nat.lt_of_succ_le hkn))]
        simp only [List.foldl_cons, List.foldl_nil]
        exact paretoStep_after false _ _ _ _ (Nat.ne_of_gt hm)
      · have hjm : m = j := by omega
        subst hjm
        rw [phase1 m (le_refl m)]
        simp only [List.foldl_cons, List.foldl_nil]
        exact paretoStep_at_min cost labels m hj hmin
  exact phase2 labels.length hj (le_refl _)

/-- Compressing a label list with the mask that holds only index `j`
yields the singleton of the j-th label. -/
theorem compress_single (labels : List α) (j : ℕ) (hj : j < labels.length) :
    ((labels.zip ((List.replicate labels.length false).set j true)).filter
      (fun p => p.2)).map (fun p => p.1) = [labels.get ⟨j, hj⟩] := by
  induction labels generalizing j with
  | nil => simp at hj
  | cons a t ih =>
    cases j with
    | zero =>
      simp only [List.length_cons, List.replicate_succ, List.set_cons_zero,
        List.zip_cons_cons, List.filter_cons]
      have hrest : (t.zip (List.replicate t.length false)).filter (fun p => p.2) = [] := by
        apply List.filter_eq_nil_iff.mpr
        intro x hx
        have := (List.of_mem_zip hx).2
        have : x.2 = false := List.eq_of_mem_replicate this
        simp [this]
      simp [hrest]
    | succ m =>
      have hm : m < t.length := by simpa using hj
      simp only [List.length_cons, List.replicate_succ, List.set_cons_succ,
        List.zip_cons_cons, List.filter_cons]
      simpa using ih m hm

/-- pareto_set with keep_equal = False returns the singleton holding the
first label of minimal total cost (and the empty list on empty input). -/
theorem pareto_set_eq_firstMin [LinearOrder β] [Inhabited β] (cost : α → β) (labels : List α) :
    pareto_set cost false labels = (firstMinBy cost labels).toList := by
  rcases eq_or_ne labels [] with rfl | hne
  · simp [pareto_set, firstMinBy]
  · have hex : ∃ l ∈ labels,
        (labels.all (fun m => decide (cost l ≤ cost m))) = true := by
      obtain ⟨l, hl, hmin⟩ := exists_min_cost cost labels hne
      exact ⟨l, hl, List.all_eq_true.mpr (fun m hm => decide_eq_true (hmin m hm))⟩
    set p : α → Bool := fun l => labels.all (fun m => decide (cost l ≤ cost m)) with hp
    have hj : labels.findIdx p < labels.length :=
      List.findIdx_lt_length_of_exists hex
    set j := labels.findIdx p with hjdef
    have hpj : p (labels.get ⟨j, hj⟩) = true := List.findIdx_getElem
    have hmin : ∀ i (hi : i < labels.length),
        cost (labels.get ⟨j, hj⟩) ≤ cost (labels.get ⟨i, hi⟩) := by
      intro i hi
      have := List.all_eq_true.mp hpj _ (List.getElem_mem hi)
      exact of_decide_eq_true this
    have hfirst : ∀ i (hi : i < labels.length), i < j →
        cost (labels.get ⟨j, hj⟩) < cost (labels.get ⟨i, hi⟩) := by
      intro i hi hij
      have hpi : p (labels.get ⟨i, hi⟩) = false := List.not_of_lt_findIdx hij
      rw [hp] at hpi
      have : ¬ (∀ m ∈ labels, cost (labels.get ⟨i, hi⟩) ≤ cost m) := by
        intro hcontra
        rw [Bool.eq_false_iff] at hpi
        exact hpi (List.all_eq_true.mpr (fun m hm => decide_eq_true (hcontra m hm)))
      push_neg at this
      obtain ⟨m, hm, hmlt⟩ := this
      obtain ⟨im, him, hmeq⟩ := List.getElem_of_mem hm
      calc cost (labels.get ⟨j, hj⟩) ≤ cost m := hmeq ▸ hmin im him
        _ < cost (labels.get ⟨i, hi⟩) := hmlt
    have hfold := paretoFold_eq cost labels j hj hmin hfirst
    have hfind : firstMinBy cost labels = some (labels.get ⟨j, hj⟩) :=
      find?_eq_getElem_findIdx p labels hj
    simp only [pareto_set]
    rw [hfold, hfind, compress_single labels j hj]
    rfl

theorem firstMinBy_spec [LinearOrder β] (cost : α → β) (labels : List α) (h : labels ≠ []) :
    ∃ l, firstMinBy cost labels = some l ∧ l ∈ labels ∧
      ∀ m ∈ labels, cost l ≤ cost m := by
  obtain ⟨l0, hl0, hmin0⟩ := exists_min_cost cost labels h
  have hex : ∃ x ∈ labels, (labels.all (fun m => decide (cost x ≤ cost m))) = true :=
    ⟨l0, hl0, List.all_eq_true.mpr (fun m hm => decide_eq_true (hmin0 m hm))⟩
  obtain ⟨l, hfind⟩ := Option.isSome_iff_exists.mp (List.find?_isSome.mpr hex)
  exact ⟨l, hfind, List.mem_of_find?_eq_some hfind, by
    intro m hm
    have := List.find?_some hfind
    exact of_decide_eq_true (List.all_eq_true.mp this m hm)⟩

theorem pareto_set_length_le_one [LinearOrder β] [Inhabited β] (cost : α → β) (labels : List α) :
    (pareto_set cost false labels).length ≤ 1 := by
  rw [pareto_set_eq_firstMin]
  cases firstMinBy cost labels <;> simp

theorem mem_pareto_set_min [LinearOrder β] [Inhabited β] (cost : α → β) (labels : List α) (l : α)
    (hl : l ∈ pareto_set cost false labels) :
    l ∈ labels ∧ ∀ m ∈ labels, cost l ≤ cost m := by
  rw [pareto_set_eq_firstMin] at hl
  rcases hfind : firstMinBy cost labels with _ | l0
  · rw [hfind] at hl; simp at hl
  · rw [hfind] at hl
    simp only [Option.toList_some, List.mem_singleton] at hl
    subst hl
    have hne : labels ≠ [] := by
      intro hnil; subst hnil; simp [firstMinBy] at hfind
    obtain ⟨l1, hfind1, hmem, hmin⟩ := firstMinBy_spec cost labels hne
    rw [hfind] at hfind1
    cases hfind1
    exact ⟨hmem, hmin⟩

theorem pareto_set_ne_nil [LinearOrder β] [Inhabited β] (cost : α → β) (labels : List α) (h : labels ≠ []) :
    pareto_set cost false labels ≠ [] := by
  rw [pareto_set_eq_firstMin]
  obtain ⟨l, hfind, -, -⟩ := firstMinBy_spec cost labels h
  rw [hfind]
  simp

/-- One list covers another when every label of the second is matched by
a label of the first whose total cost is not larger (weighted-sum
domination, as in `MultiCriteriaLabel.is_dominating`). -/
def covers [LinearOrder β] (cost : α → β) (A B : List α) : Prop :=
  ∀ l ∈ B, ∃ m ∈ A, cost m ≤ cost l

theorem covers_refl [LinearOrder β] (cost : α → β) (A : List α) : covers cost A A :=
  fun l hl => ⟨l, hl, le_refl _⟩

theorem covers_trans [LinearOrder β] (cost : α → β) {A B C : List α}
    (h1 : covers cost A B) (h2 : covers cost B C) : covers cost A C := by
  intro l hl
  obtain ⟨m, hm, hle⟩ := h2 l hl
  obtain ⟨k, hk, hle2⟩ := h1 m hm
  exact ⟨k, hk, le_trans hle2 hle⟩

/-- Merging never loses ground: every label of the receiving bag is
covered by a label of the merged bag with cost not larger. -/
theorem merge_covers [DecidableEq α] [LinearOrder β] [Inhabited β] (cost : α → β) (b other : Bag α) :
    covers cost (Bag.merge cost b other).labels b.labels := by
  intro l hl
  unfold Bag.merge
  by_cases hemp : (b.labels ++ other.labels).isEmpty
  · rw [List.isEmpty_iff] at hemp
    have : b.labels = [] := (List.append_eq_nil.mp hemp).1
    rw [this] at hl
    simp at hl
  · simp only [hemp, if_false]
    have hne : b.labels ++ other.labels ≠ [] := by
      intro hc; rw [hc] at hemp; simp at hemp
    rw [pareto_set_eq_firstMin]
    obtain ⟨m, hfind, hmem, hmin⟩ := firstMinBy_spec cost _ hne
    rw [hfind]
    exact ⟨m, by simp, hmin l (List.mem_append_left _ hl)⟩

/-- Labels of a merged bag have minimal cost among all labels of the two
merged bags. -/
theorem merge_mem_min [DecidableEq α] [LinearOrder β] [Inhabited β] (cost : α → β) (b other : Bag α) (l : α)
    (hl : l ∈ (Bag.merge cost b other).labels) :
    ∀ m ∈ b.labels ++ other.labels, cost l ≤ cost m := by
  unfold Bag.merge at hl
  by_cases hemp : (b.labels ++ other.labels).isEmpty
  · simp only [hemp, if_true] at hl
    simp at hl
  · simp only [hemp, if_false] at hl
    exact (mem_pareto_set_min cost _ l hl).2

/- ------------------------------------------------------------------
Criteria and multi-criteria labels (structures.py lines 976-1463).
------------------------------------------------------------------ -/

/-- Modelled from the spec: `LARGE_NUMBER` lives in pyraptor/util.py,
which is not under src/; the spec describes the cost of a criterion whose
raw value breaches its upper bound as +∞, so the embedding uses a fixed
huge surrogate constant. -/
def LARGE_NUMBER : ℚ := 1000000000000

/-- The four Criterion subclasses of structures.py. -/
inductive CriterionKind where
  | arrivalTime
  | transfersNumber
  | distance
  | emissions
deriving DecidableEq, Repr

/-- Criterion of structures.py: subclass tag (standing for the Python
class and `name`), weight, raw value and upper bound. -/
structure Criterion where
  kind : CriterionKind
  weight : ℚ
  raw_value : ℚ
  upper_bound : ℚ
deriving DecidableEq, Repr

/-- Criterion.cost of structures.py: `LARGE_NUMBER` when the raw value
exceeds the upper bound, else the weighted scaled value. -/
def Criterion.cost (c : Criterion) : ℚ :=
  if c.upper_bound < c.raw_value then LARGE_NUMBER
  else c.weight * (c.raw_value / c.upper_bound)

/-- MultiCriteriaLabel of structures.py: trip, boarding stop and the
criteria collection. -/
structure MultiCriteriaLabel where
  trip : Option Trip
  boarding_stop : Stop
  criteria : List Criterion
deriving DecidableEq, Repr

/-- MultiCriteriaLabel.total_cost: `sum(self.criteria, start=0.0)`,
which through `Criterion.__radd__`/`__add__` evaluates to the sum of the
criteria costs. -/
def MultiCriteriaLabel.total_cost (l : MultiCriteriaLabel) : ℚ :=
  (l.criteria.map Criterion.cost).sum

/-- MultiCriteriaLabel.is_dominating of structures.py (weighted-sum
domination). -/
def MultiCriteriaLabel.is_dominating (l other : MultiCriteriaLabel) : Prop :=
  l.total_cost ≤ other.total_cost

/-- Componentwise Pareto domination as stated by the spec: every raw
criterion value of the first label is less than or equal to the matching
raw value of the second, and at least one is strictly less. -/
def pareto_dominates (a b : MultiCriteriaLabel) : Prop :=
  (∀ p ∈ a.criteria.zip b.criteria, p.1.raw_value ≤ p.2.raw_value) ∧
  (∃ p ∈ a.criteria.zip b.criteria, p.1.raw_value < p.2.raw_value)

theorem pareto_dominates_irrefl (a : MultiCriteriaLabel) :
    ¬ pareto_dominates a a := by
  rintro ⟨-, p, hp, hlt⟩
  obtain ⟨i, hi, hieq⟩ := List.getElem_of_mem hp
  have hic : i < a.criteria.length := by
    rw [List.length_zip] at hi
    simpa using hi
  have : p = (a.criteria[i], a.criteria[i]) := by
    rw [← hieq]; exact List.getElem_zip
  rw [this] at hlt
  exact absurd hlt (lt_irrefl _)

theorem merge_labels_length_le_one [DecidableEq α] [LinearOrder β] [Inhabited β]
    (cost : α → β) (b other : Bag α) : (Bag.merge cost b other).labels.length ≤ 1 := by
  unfold Bag.merge
  by_cases hemp : (b.labels ++ other.labels).isEmpty
  · simp [hemp]
  · simp only [hemp, if_false]
    exact pareto_set_length_le_one cost _

theorem firstMinBy_singleton [LinearOrder β] (cost : α → β) (l : α) :
    firstMinBy cost [l] = some l := by
  have h : (decide (cost l ≤ cost l)) = true := decide_eq_true (le_refl _)
  simp [firstMinBy, List.find?_cons, List.all_cons, h]

theorem merge_union_singleton [DecidableEq α] [LinearOrder β] [Inhabited β]
    (cost : α → β) (b other : Bag α) (l : α)
    (h : b.labels ++ other.labels = [l]) :
    (Bag.merge cost b other).labels = [l] := by
  simp only [Bag.merge, h]
  rw [pareto_set_eq_firstMin, firstMinBy_singleton]
  rfl

/- Concrete sample data reused by witnesses below. -/

/-- Sample stop used by concrete witnesses. -/
def wStop : Stop := { id := 0, stationId := 0 }

/-- Sample criterion within its upper bound (cost 1/5). -/
def wCritGood : Criterion :=
  { kind := .arrivalTime, weight := 1, raw_value := 2, upper_bound := 10 }

/-- Sample criterion breaching its upper bound (cost LARGE_NUMBER). -/
def wCritBad : Criterion :=
  { kind := .arrivalTime, weight := 1, raw_value := 20, upper_bound := 10 }

/-- Sample label within bounds. -/
def wLabGood : MultiCriteriaLabel :=
  { trip := none, boarding_stop := wStop, criteria := [wCritGood] }

/-- Sample label whose single criterion breaches its upper bound. -/
def wLabBad : MultiCriteriaLabel :=
  { trip := none, boarding_stop := wStop, criteria := [wCritBad] }

/-- C1: for every Bag and every other Bag, the bag returned by merge
contains no pair of labels (A, B) such that A dominates B under
componentwise Pareto dominance (raw values componentwise ≤ with at
least one strictly less). -/
theorem claim_C1_merge_pareto_antichain (b other : Bag MultiCriteriaLabel)
    (A B : MultiCriteriaLabel)
    (hA : A ∈ (Bag.merge MultiCriteriaLabel.total_cost b other).labels)
    (hB : B ∈ (Bag.merge MultiCriteriaLabel.total_cost b other).labels) :
    ¬ pareto_dominates A B := by
  have hlen := merge_labels_length_le_one MultiCriteriaLabel.total_cost b other
  have hAB : A = B := by
    rcases hres : (Bag.merge MultiCriteriaLabel.total_cost b other).labels with
      _ | ⟨x, _ | ⟨y, t⟩⟩
    · rw [hres] at hA; simp at hA
    · rw [hres] at hA hB
      simp only [List.mem_singleton] at hA hB
      rw [hA, hB]
    · rw [hres] at hlen; simp at hlen
  rw [hAB]
  exact pareto_dominates_irrefl B

/-- Witness for C1 at a concrete merge. -/
theorem claim_C1_witness :
    (wLabGood ∈ (Bag.merge MultiCriteriaLabel.total_cost
      { labels := [wLabGood], updated := false }
      { labels := [], updated := false }).labels) ∧
    ¬ pareto_dominates wLabGood wLabGood := by
  have hmem : wLabGood ∈ (Bag.merge MultiCriteriaLabel.total_cost
      { labels := [wLabGood], updated := false }
      { labels := [], updated := false }).labels := by
    rw [merge_union_singleton MultiCriteriaLabel.total_cost _ _ wLabGood (by simp)]
    simp
  exact ⟨hmem, claim_C1_merge_pareto_antichain _ _ wLabGood wLabGood hmem hmem⟩

/-- C2: on a non-empty list of labels (each carrying at least one
criterion, as the Python implementation requires to evaluate
`total_cost`), pareto_set with keep_equal = False returns the singleton
holding the first label of minimal total cost; consequently Bag.merge
of non-empty bags returns a bag holding exactly one label. -/
theorem claim_C2_pareto_first_argmin (labels : List MultiCriteriaLabel)
    (h : labels ≠ []) (hcrit : ∀ l ∈ labels, l.criteria ≠ []) :
    (∃ l, firstMinBy MultiCriteriaLabel.total_cost labels = some l ∧
      pareto_set MultiCriteriaLabel.total_cost false labels = [l]) ∧
    ∀ b other : Bag MultiCriteriaLabel, b.labels ≠ [] → other.labels ≠ [] →
      (Bag.merge MultiCriteriaLabel.total_cost b other).labels.length = 1 := by
  constructor
  · obtain ⟨l, hfind, hmem, hmin⟩ :=
      firstMinBy_spec MultiCriteriaLabel.total_cost labels h
    refine ⟨l, hfind, ?_⟩
    rw [pareto_set_eq_firstMin, hfind]
    rfl
  · intro b other hb hother
    have hne : b.labels ++ other.labels ≠ [] := by
      intro hc
      exact hb (List.append_eq_nil.mp hc).1
    have h1 := merge_labels_length_le_one MultiCriteriaLabel.total_cost b other
    have h2 : (Bag.merge MultiCriteriaLabel.total_cost b other).labels ≠ [] := by
      unfold Bag.merge
      have hemp : (b.labels ++ other.labels).isEmpty = false := by
        rcases hbl : b.labels with _ | ⟨x, t⟩
        · exact absurd hbl hb
        · simp
      simp only [hemp, Bool.false_eq_true, if_false]
      exact pareto_set_ne_nil _ _ hne
    rcases hres : (Bag.merge MultiCriteriaLabel.total_cost b other).labels with
      _ | ⟨x, t⟩
    · exact absurd hres h2
    · rw [hres] at h1
      simp only [List.length_cons] at h1 ⊢
      omega

/-- Witness for C2 on a concrete two-label list. -/
theorem claim_C2_witness :
    ([wLabBad, wLabGood] ≠ ([] : List MultiCriteriaLabel)) ∧
    (∀ l ∈ [wLabBad, wLabGood], l.criteria ≠ []) ∧
    ((∃ l, firstMinBy MultiCriteriaLabel.total_cost [wLabBad, wLabGood] = some l ∧
        pareto_set MultiCriteriaLabel.total_cost false [wLabBad, wLabGood] = [l]) ∧
      ∀ b other : Bag MultiCriteriaLabel, b.labels ≠ [] → other.labels ≠ [] →
        (Bag.merge MultiCriteriaLabel.total_cost b other).labels.length = 1) :=
  ⟨by decide, by decide,
    claim_C2_pareto_first_argmin [wLabBad, wLabGood] (by decide) (by decide)⟩

/-- C5 counterexample: a label whose only criterion breaches its upper
bound (raw 20 over bound 10) still enters the bag produced by a merge,
because pareto_set keeps the label of minimal total cost even when that
cost is the LARGE_NUMBER breach surrogate. -/
theorem claim_C5_counterexample :
    wCritBad.upper_bound < wCritBad.raw_value ∧
    wLabBad ∈ (Bag.merge MultiCriteriaLabel.total_cost
      { labels := [], updated := false }
      { labels := [wLabBad], updated := false }).labels := by
  constructor
  · decide
  · rw [merge_union_singleton MultiCriteriaLabel.total_cost _ _ wLabBad (by simp)]
    simp

/-- C5 amended: the normalized cost of a criterion equals
weight · raw_value / upper_bound whenever raw_value ≤ upper_bound and
equals LARGE_NUMBER (the spec's +∞ surrogate) otherwise; a label
surviving a merge has minimal total cost among all merged labels, so a
breaching label is discarded whenever a label of strictly smaller total
cost is present, yet it can enter a bag when every alternative is at
least as costly. -/
theorem claim_C5_amended (c : Criterion) (b other : Bag MultiCriteriaLabel)
    (l : MultiCriteriaLabel) :
    (c.raw_value ≤ c.upper_bound →
      c.cost = c.weight * (c.raw_value / c.upper_bound)) ∧
    (c.upper_bound < c.raw_value → c.cost = LARGE_NUMBER) ∧
    (l ∈ (Bag.merge MultiCriteriaLabel.total_cost b other).labels →
      ∀ m ∈ b.labels ++ other.labels,
        l.total_cost ≤ m.total_cost) ∧
    ((∃ m ∈ b.labels ++ other.labels, m.total_cost < l.total_cost) →
      l ∉ (Bag.merge MultiCriteriaLabel.total_cost b other).labels) := by
  refine ⟨?_, ?_, ?_, ?_⟩
  · intro hle
    unfold Criterion.cost
    rw [if_neg (not_lt.mpr hle)]
  · intro hlt
    unfold Criterion.cost
    rw [if_pos hlt]
  · intro hl
    exact merge_mem_min MultiCriteriaLabel.total_cost b other l hl
  · rintro ⟨m, hm, hlt⟩ hl
    exact absurd (merge_mem_min MultiCriteriaLabel.total_cost b other l hl m hm)
      (not_le.mpr hlt)

/-- Witness for the amended C5 at concrete criteria and a concrete
merge: the in-bound criterion scales, the breaching criterion costs
LARGE_NUMBER, and the breaching label is kept out of a merge containing
the cheaper label. -/
theorem claim_C5_witness :
    wCritGood.cost = wCritGood.weight * (wCritGood.raw_value / wCritGood.upper_bound) ∧
    wCritBad.cost = LARGE_NUMBER ∧
    wLabBad ∉ (Bag.merge MultiCriteriaLabel.total_cost
      { labels := [wLabGood], updated := false }
      { labels := [wLabBad], updated := false }).labels :=
  ⟨(claim_C5_amended wCritGood
      { labels := [wLabGood], updated := false }
      { labels := [wLabBad], updated := false } wLabBad).1 (by decide),
    (claim_C5_amended wCritBad
      { labels := [wLabGood], updated := false }
      { labels := [wLabBad], updated := false } wLabBad).2.1 (by decide),
    (claim_C5_amended wCritBad
      { labels := [wLabGood], updated := false }
      { labels := [wLabBad], updated := false } wLabBad).2.2.2
      ⟨wLabGood, by simp, by
        norm_num [MultiCriteriaLabel.total_cost, Criterion.cost, wLabGood,
          wLabBad, wCritGood, wCritBad, LARGE_NUMBER]⟩⟩

/- ------------------------------------------------------------------
Route and earliest_trip (structures.py lines 576-649).
------------------------------------------------------------------ -/

instance : Inhabited TripStopTime :=
  ⟨{ stop := { id := 0, stationId := 0 }, dts_arr := 0, dts_dep := 0 }⟩

/-- Stable insertion embedding one step of Python's stable `sorted` by
key: an element passes over strictly smaller keys and lands before
equal or larger ones, so earlier list positions win ties. -/
def insertSorted [LinearOrder β] (key : α → β) (x : α) : List α → List α
  | [] => [x]
  | y :: ys => if key y < key x then y :: insertSorted key x ys else x :: y :: ys

/-- Stable sort by key, embedding `sorted(..., key=attrgetter(...))`. -/
def sortByKey [LinearOrder β] (key : α → β) (l : List α) : List α :=
  l.foldr (insertSorted key) []

theorem insertSorted_head? [LinearOrder β] (key : α → β) (x : α) (s : List α) :
    (insertSorted key x s).head? = some (match s.head? with
      | none => x
      | some y => if key y < key x then y else x) := by
  cases s with
  | nil => rfl
  | cons y ys =>
    simp only [insertSorted, List.head?_cons]
    by_cases h : key y < key x
    · simp [h]
    · simp [h]

theorem firstMinBy_eq_none_iff [LinearOrder β] (key : α → β) (l : List α) :
    firstMinBy key l = none ↔ l = [] := by
  constructor
  · intro h
    by_contra hne
    obtain ⟨m, hfind, -, -⟩ := firstMinBy_spec key l hne
    rw [h] at hfind
    exact Option.noConfusion hfind
  · rintro rfl
    rfl

theorem firstMinBy_cons [LinearOrder β] (key : α → β) (x : α) (xs : List α) :
    firstMinBy key (x :: xs) = some (match firstMinBy key xs with
      | none => x
      | some m => if key m < key x then m else x) := by
  rcases hm : firstMinBy key xs with _ | m
  · have hxs : xs = [] := (firstMinBy_eq_none_iff key xs).mp hm
    subst hxs
    simpa using firstMinBy_singleton key x
  · have hxs : xs ≠ [] := by
      intro hc
      subst hc
      simp [firstMinBy] at hm
    obtain ⟨m0, hfind0, hmem0, hmin0⟩ := firstMinBy_spec key xs hxs
    rw [hm] at hfind0
    cases hfind0
    obtain ⟨hpm, as, bs, hdec, hfail⟩ := List.find?_eq_some.mp hm
    by_cases hlt : key m < key x
    · simp only [hlt, if_true]
      have hpx : ((x :: xs).all (fun y => decide (key x ≤ key y))) = false := by
        rw [Bool.eq_false_iff]
        intro hall
        have := List.all_eq_true.mp hall m (List.mem_cons_of_mem _ hmem0)
        exact absurd (of_decide_eq_true this) (not_le.mpr hlt)
      unfold firstMinBy
      rw [List.find?_cons_of_neg _ (by rw [hpx]; simp)]
      apply List.find?_eq_some.mpr
      refine ⟨?_, as, bs, hdec, ?_⟩
      · apply List.all_eq_true.mpr
        intro y hy
        rcases List.mem_cons.mp hy with rfl | hy
        · exact decide_eq_true (le_of_lt hlt)
        · exact decide_eq_true (hmin0 y hy)
      · intro a ha
        have hfa := hfail a ha
        simp only [Bool.not_eq_eq_eq_not, Bool.not_true] at hfa ⊢
        rw [Bool.eq_false_iff] at hfa ⊢
        intro hall
        apply hfa
        apply List.all_eq_true.mpr
        intro y hy
        exact List.all_eq_true.mp hall y (List.mem_cons_of_mem _ hy)
    · simp only [hlt, if_false]
      have hxm : key x ≤ key m := le_of_not_lt hlt
      unfold firstMinBy
      apply List.find?_cons_of_pos
      apply List.all_eq_true.mpr
      intro y hy
      rcases List.mem_cons.mp hy with rfl | hy
      · exact decide_eq_true (le_refl _)
      · exact decide_eq_true (le_trans hxm (hmin0 y hy))

theorem sortByKey_head? [LinearOrder β] (key : α → β) (l : List α) :
    (sortByKey key l).head? = firstMinBy key l := by
  induction l with
  | nil => rfl
  | cons x xs ih =>
    have hfold : sortByKey key (x :: xs) = insertSorted key x (sortByKey key xs) := rfl
    rw [hfold, insertSorted_head?, ih, firstMinBy_cons]

theorem find?_congr_mem (p q : α → Bool) (l : List α)
    (h : ∀ a ∈ l, p a = q a) : l.find? p = l.find? q := by
  induction l with
  | nil => rfl
  | cons a t ih =>
    have ha := h a (by simp)
    by_cases hpa : p a
    · rw [List.find?_cons_of_pos _ hpa, List.find?_cons_of_pos _ (ha ▸ hpa)]
    · rw [List.find?_cons_of_neg _ hpa, List.find?_cons_of_neg _ (by rw [← ha]; exact hpa),
        ih (fun b hb => h b (List.mem_cons_of_mem _ hb))]

/-- Route of structures.py: id, trips, ordered stop sequence. -/
structure Route where
  id : ℕ
  trips : List Trip
  stops : List Stop
deriving DecidableEq, Repr

/-- Route.stop_index via the stop_order dict: the Python dict
comprehension maps each stop to its enumeration index with later
duplicates overriding earlier ones; none embeds the KeyError on a stop
the route does not serve. -/
def Route.stop_index? (r : Route) (s : Stop) : Option ℕ :=
  r.stops.enum.foldl (fun acc p => if p.2 = s then some p.1 else acc) none

/-- Total stop index used inside the algorithms, where Python only
queries stops served by the route. -/
def Route.stop_index (r : Route) (s : Stop) : ℕ :=
  (r.stop_index? s).getD 0

/-- Stop time of a trip at the queried stop index of the route:
`trip.stop_times[stop_idx]`, totalised with a default stop time where
Python would raise an IndexError. -/
def Route.tst_at (r : Route) (s : Stop) (t : Trip) : TripStopTime :=
  t.stop_times.getD (r.stop_index s) default

/-- Departure seconds of a trip at the queried stop of the route. -/
def Route.dep_at (r : Route) (s : Stop) (t : Trip) : ℤ :=
  (r.tst_at s t).dts_dep

/-- Route.earliest_trip of structures.py: take each trip's stop time at
the stop index, keep those departing at or after the requested time,
sort them by departure time (stably) and return the first trip, or none
when no trip qualifies. -/
def Route.earliest_trip (r : Route) (dts_arr : ℤ) (stop : Stop) : Option Trip :=
  let trip_stop_times := r.trips.map (fun t => (t, r.tst_at stop t))
  let trip_stop_times := trip_stop_times.filter
    (fun p => decide (dts_arr ≤ p.2.dts_dep))
  let trip_stop_times := sortByKey (fun p => p.2.dts_dep) trip_stop_times
  trip_stop_times.head?.map (fun p => p.1)

theorem earliest_trip_eq_firstMin (r : Route) (dts_arr : ℤ) (stop : Stop) :
    r.earliest_trip dts_arr stop =
      (firstMinBy (fun p => p.2.dts_dep)
        ((r.trips.map (fun t => (t, r.tst_at stop t))).filter
          (fun p => decide (dts_arr ≤ p.2.dts_dep)))).map (fun p => p.1) := by
  simp only [Route.earliest_trip]
  rw [sortByKey_head?]

/-- Trips and stops used by the concrete earliest_trip counterexample:
two trips of one route departing the first stop at the same second, the
first one in trip order arriving strictly later at the following
stop. -/
def cexStopA : Stop := { id := 10, stationId := 10 }

/-- Second stop of the counterexample route. -/
def cexStopB : Stop := { id := 11, stationId := 11 }

/-- First trip of the counterexample route: departs A at 100, reaches B
at 300. -/
def cexTrip1 : Trip :=
  { id := .sched 1, transport_type := .rail,
    stop_times := [
      { stop := cexStopA, dts_arr := 100, dts_dep := 100 },
      { stop := cexStopB, dts_arr := 300, dts_dep := 300 }] }

/-- Second trip of the counterexample route: departs A at 100 as well,
but reaches B already at 200. -/
def cexTrip2 : Trip :=
  { id := .sched 2, transport_type := .rail,
    stop_times := [
      { stop := cexStopA, dts_arr := 100, dts_dep := 100 },
      { stop := cexStopB, dts_arr := 200, dts_dep := 200 }] }

/-- Counterexample route serving stops A then B with the two trips. -/
def cexRoute : Route :=
  { id := 1, trips := [cexTrip1, cexTrip2], stops := [cexStopA, cexStopB] }

/-- C6 counterexample: both trips are boardable at the first stop with
the same departure time 100, the second trip arrives strictly earlier
at the following stop, yet earliest_trip returns the first trip in
trip-list order: the sort key is the departure time only, so the
claimed tie-break by next-stop arrival does not happen. -/
theorem claim_C6_counterexample :
    cexRoute.earliest_trip 0 cexStopA = some cexTrip1 ∧
    cexTrip1 ≠ cexTrip2 ∧
    cexRoute.dep_at cexStopA cexTrip1 = 100 ∧
    cexRoute.dep_at cexStopA cexTrip2 = 100 ∧
    (cexTrip2.get_stop_time_d cexStopB).dts_arr <
      (cexTrip1.get_stop_time_d cexStopB).dts_arr := by
  decide

/-- C6 amended: earliest_trip returns none exactly when no trip of the
route departs the stop at or after the requested time; otherwise it
returns a boardable trip of minimal departure time, and among the trips
departing no later it is the first in the route's trip-list order (ties
on the departure time are broken by list position, not by the arrival
time at the following stop). -/
theorem claim_C6_earliest_trip (r : Route) (dts_arr : ℤ) (s : Stop) :
    (r.earliest_trip dts_arr s = none →
      ∀ t ∈ r.trips, ¬ (dts_arr ≤ r.dep_at s t)) ∧
    (∀ t, r.earliest_trip dts_arr s = some t →
      t ∈ r.trips ∧ dts_arr ≤ r.dep_at s t ∧
      (∀ u ∈ r.trips, dts_arr ≤ r.dep_at s u → r.dep_at s t ≤ r.dep_at s u) ∧
      r.trips.find? (fun u => decide (dts_arr ≤ r.dep_at s u) &&
        decide (r.dep_at s u ≤ r.dep_at s t)) = some t) := by
  have hE := earliest_trip_eq_firstMin r dts_arr s
  set f : Trip → Trip × TripStopTime := fun t => (t, r.tst_at s t) with hf
  set pred : Trip × TripStopTime → Bool :=
    fun p => decide (dts_arr ≤ p.2.dts_dep) with hpred
  set L : List (Trip × TripStopTime) := (r.trips.map f).filter pred with hL
  constructor
  · intro hnone
    intro t ht
    rw [hE] at hnone
    have hfm : firstMinBy (fun p => p.2.dts_dep) L = none :=
      Option.map_eq_none.mp hnone
    have hLnil : L = [] := (firstMinBy_eq_none_iff _ L).mp hfm
    have := List.filter_eq_nil_iff.mp hLnil (f t)
      (List.mem_map_of_mem f ht)
    intro hcontra
    exact this (decide_eq_true hcontra)
  · intro t hsome
    rw [hE] at hsome
    obtain ⟨q, hq, hq1⟩ := Option.map_eq_some.mp hsome
    have hne : L ≠ [] := by
      intro hc
      rw [hc] at hq
      simp [firstMinBy] at hq
    obtain ⟨q0, hq0, hq0mem, hq0min⟩ :=
      firstMinBy_spec (fun p => p.2.dts_dep) L hne
    rw [hq] at hq0
    cases hq0
    have hqL := hq0mem
    rw [hL, List.mem_filter] at hqL
    obtain ⟨hqmap, hqpred⟩ := hqL
    obtain ⟨u, hu, hufq⟩ := List.mem_map.mp hqmap
    have hqt : q = f t := by
      have hut : u = t := by rw [← hq1, ← hufq]
      rw [← hufq, hut]
    have htmem : t ∈ r.trips := by
      have hut : u = t := by rw [← hq1, ← hufq]
      rw [← hut]
      exact hu
    have hboard : dts_arr ≤ r.dep_at s t := by
      have := of_decide_eq_true hqpred
      rw [hqt] at this
      exact this
    have hftL : f t ∈ L := by
      rw [hL, List.mem_filter]
      exact ⟨List.mem_map_of_mem f htmem, decide_eq_true hboard⟩
    have hmin : ∀ u ∈ r.trips, dts_arr ≤ r.dep_at s u →
        r.dep_at s t ≤ r.dep_at s u := by
      intro v hv hvb
      have hfvL : f v ∈ L := by
        rw [hL, List.mem_filter]
        exact ⟨List.mem_map_of_mem f hv, decide_eq_true hvb⟩
      have := hq0min (f v) hfvL
      rw [hqt] at this
      exact this
    refine ⟨htmem, hboard, hmin, ?_⟩
    have hfm : firstMinBy (fun p => p.2.dts_dep) L = some (f t) := by
      rw [hq, hqt]
    unfold firstMinBy at hfm
    rw [hL, List.find?_filter, List.find?_map] at hfm
    obtain ⟨u0, hu0, hu0f⟩ := Option.map_eq_some.mp hfm
    have hu0t : u0 = t := congrArg Prod.fst hu0f
    rw [hu0t] at hu0
    rw [← hu0]
    apply find?_congr_mem
    intro v hv
    rw [Bool.eq_iff_iff]
    constructor
    · intro hc
      rw [Bool.and_eq_true] at hc
      obtain ⟨hc1, hc2⟩ := hc
      have hb : dts_arr ≤ r.dep_at s v := of_decide_eq_true hc1
      have hvt : r.dep_at s v ≤ r.dep_at s t := of_decide_eq_true hc2
      simp only [Function.comp]
      apply decide_eq_true
      refine ⟨decide_eq_true hb, ?_⟩
      apply List.all_eq_true.mpr
      intro m hmL
      rw [List.mem_filter] at hmL
      obtain ⟨hmmap, hmpred⟩ := hmL
      obtain ⟨w, hw, hwm⟩ := List.mem_map.mp hmmap
      have hwb : dts_arr ≤ r.dep_at s w := by
        have hmp := of_decide_eq_true hmpred
        rw [← hwm] at hmp
        exact hmp
      apply decide_eq_true
      calc (f v).2.dts_dep = r.dep_at s v := rfl
        _ ≤ r.dep_at s t := hvt
        _ ≤ r.dep_at s w := hmin w hw hwb
        _ = m.2.dts_dep := by rw [← hwm]; rfl
    · intro hc
      simp only [Function.comp] at hc
      have hcp := of_decide_eq_true hc
      obtain ⟨hc1, hc2⟩ := hcp
      have hb : dts_arr ≤ r.dep_at s v := of_decide_eq_true hc1
      have hminL := List.all_eq_true.mp hc2 (f t) (by rw [← hL]; exact hftL)
      rw [Bool.and_eq_true]
      exact ⟨decide_eq_true hb, decide_eq_true (of_decide_eq_true hminL)⟩

/-- Witness for the amended C6 applied to the concrete route. -/
theorem claim_C6_witness :
    cexTrip1 ∈ cexRoute.trips ∧
    (0 : ℤ) ≤ cexRoute.dep_at cexStopA cexTrip1 ∧
    (∀ u ∈ cexRoute.trips, (0 : ℤ) ≤ cexRoute.dep_at cexStopA u →
      cexRoute.dep_at cexStopA cexTrip1 ≤ cexRoute.dep_at cexStopA u) ∧
    cexRoute.trips.find? (fun u => decide ((0 : ℤ) ≤ cexRoute.dep_at cexStopA u) &&
      decide (cexRoute.dep_at cexStopA u ≤ cexRoute.dep_at cexStopA cexTrip1)) =
      some cexTrip1 :=
  (claim_C6_earliest_trip cexRoute 0 cexStopA).2 cexTrip1 (by decide)

/- ------------------------------------------------------------------
Route accumulation, phase A (base.py _accumulate_routes and
mcraptor.py accumulate_routes, which share the same body).
------------------------------------------------------------------ -/

/-- Routes.get_routes_of_stop: the stop_to_routes reverse index pairs a
stop with every route whose stop sequence contains it. -/
def get_routes_of_stop (routes : List Route) (s : Stop) : List Route :=
  routes.filter (fun r => decide (s ∈ r.stops))

/-- Lookup in Q: Python dicts keyed by Route hash on the id and
`same_type_and_id` equality, so the key comparison is id equality. -/
def qLookup (q : List (Route × Stop)) (r : Route) : Option Stop :=
  (q.find? (fun p => decide (p.1.id = r.id))).map (fun p => p.2)

/-- Assignment `Q[route] = stop`: replace the value of an existing key
in place (keeping the original key object and its position), else
append the new binding, as Python dicts do. -/
def qUpdate (q : List (Route × Stop)) (r : Route) (s : Stop) :
    List (Route × Stop) :=
  if (q.find? (fun p => decide (p.1.id = r.id))).isSome then
    q.map (fun p => if p.1.id = r.id then (p.1, s) else p)
  else q ++ [(r, s)]

/-- One `for route in routes_serving_stop` iteration of
accumulate_routes: store the marked stop when the route is new to Q or
when the marked stop sits strictly earlier in the route's stop
order. -/
def accRouteStep (marked_stop : Stop) (q : List (Route × Stop))
    (route : Route) : List (Route × Stop) :=
  match qLookup q route with
  | none => qUpdate q route marked_stop
  | some current =>
      if route.stop_index marked_stop < route.stop_index current then
        qUpdate q route marked_stop
      else q

/-- accumulate_routes of base.py/mcraptor.py: fold the update above
over every marked stop and every route serving it. -/
def accumulate_routes (routes : List Route) (marked_stops : List Stop) :
    List (Route × Stop) :=
  marked_stops.foldl (fun q marked_stop =>
    (get_routes_of_stop routes marked_stop).foldl (accRouteStep marked_stop) q) []

theorem qLookup_mapUpdate (q : List (Route × Stop)) (r : Route) (s : Stop)
    (r' : Route) :
    qLookup (q.map (fun p => if p.1.id = r.id then (p.1, s) else p)) r' =
      if r'.id = r.id then (qLookup q r').map (fun _ => s)
      else qLookup q r' := by
  induction q with
  | nil =>
    by_cases hid : r'.id = r.id
    · simp [qLookup, hid]
    · simp [qLookup, hid]
  | cons a t ih =>
    by_cases ha : a.1.id = r.id
    · by_cases hid : r'.id = r.id
      · have haid : a.1.id = r'.id := by rw [ha, hid]
        simp only [List.map_cons, if_pos ha]
        unfold qLookup
        rw [List.find?_cons_of_pos _ (by simp [haid]),
          List.find?_cons_of_pos _ (by simp [haid])]
        rw [if_pos hid]
        rfl
      · have haid : ¬ a.1.id = r'.id := by
          rw [ha]
          intro hc
          exact hid hc.symm
        simp only [List.map_cons, if_pos ha]
        unfold qLookup
        rw [List.find?_cons_of_neg _ (by simp [haid]),
          List.find?_cons_of_neg _ (by simp [haid])]
        have := ih
        unfold qLookup at this
        rw [if_neg hid] at this
        rw [this, if_neg hid]
    · simp only [List.map_cons, if_neg ha]
      by_cases ha2 : a.1.id = r'.id
      · have hid : ¬ r'.id = r.id := by
          intro hc
          exact ha (ha2.trans hc)
        unfold qLookup
        rw [List.find?_cons_of_pos _ (by simp [ha2]),
          List.find?_cons_of_pos _ (by simp [ha2])]
        rw [if_neg hid]
      · unfold qLookup
        rw [List.find?_cons_of_neg _ (by simp [ha2]),
          List.find?_cons_of_neg _ (by simp [ha2])]
        exact ih

theorem qLookup_qUpdate (q : List (Route × Stop)) (r : Route) (s : Stop)
    (r' : Route) :
    qLookup (qUpdate q r s) r' =
      if r'.id = r.id then some s else qLookup q r' := by
  unfold qUpdate
  by_cases hfound : (q.find? (fun p => decide (p.1.id = r.id))).isSome
  · rw [if_pos hfound, qLookup_mapUpdate]
    by_cases hid : r'.id = r.id
    · rw [if_pos hid, if_pos hid]
      obtain ⟨p0, hp0⟩ := Option.isSome_iff_exists.mp hfound
      unfold qLookup
      rw [show (fun p : Route × Stop => decide (p.1.id = r'.id)) =
        (fun p : Route × Stop => decide (p.1.id = r.id)) from by
          funext p
          rw [hid]]
      rw [hp0]
      rfl
    · rw [if_neg hid, if_neg hid]
  · rw [if_neg hfound]
    unfold qLookup
    rw [List.find?_append]
    by_cases hid : r'.id = r.id
    · rw [if_pos hid]
      have hq : q.find? (fun p => decide (p.1.id = r'.id)) = none := by
        rw [Option.not_isSome_iff_eq_none] at hfound
        rw [show (fun p : Route × Stop => decide (p.1.id = r'.id)) =
          (fun p : Route × Stop => decide (p.1.id = r.id)) from by
            funext p
            rw [hid]]
        exact hfound
      rw [hq]
      simp only [Option.none_or]
      rw [List.find?_cons_of_pos _ (by simp [hid])]
      rfl
    · rw [if_neg hid]
      have hsingle : List.find?
          (fun p : Route × Stop => decide (p.1.id = r'.id)) [(r, s)] = none := by
        rw [List.find?_cons_of_neg _ (by
          simp only [decide_eq_true_eq]
          intro hc
          exact hid hc.symm)]
        rfl
      rw [hsingle, Option.or_none]

theorem qUpdate_mem (q : List (Route × Stop)) (r : Route) (s : Stop)
    (p : Route × Stop) (hp : p ∈ qUpdate q r s) :
    p ∈ q ∨ p = (r, s) ∨ (∃ p0 ∈ q, p.1 = p0.1 ∧ p.2 = s ∧ p.1.id = r.id) := by
  unfold qUpdate at hp
  by_cases hfound : (q.find? (fun p => decide (p.1.id = r.id))).isSome
  · rw [if_pos hfound] at hp
    obtain ⟨p0, hp0, hpeq⟩ := List.mem_map.mp hp
    by_cases hid : p0.1.id = r.id
    · rw [if_pos hid] at hpeq
      right; right
      exact ⟨p0, hp0, by rw [← hpeq], by rw [← hpeq], by rw [← hpeq]; exact hid⟩
    · rw [if_neg hid] at hpeq
      left
      rw [← hpeq]
      exact hp0
  · rw [if_neg hfound] at hp
    rcases List.mem_append.mp hp with hp | hp
    · left; exact hp
    · right; left
      simpa using hp

/-- Effect of one accumulate_routes iteration on lookups: the processed
route's entry becomes the better of its current stop and the marked
stop (strictly smaller stop index wins, ties keep the current entry);
entries of other route ids are untouched. -/
theorem accRouteStep_lookup (marked_stop : Stop) (q : List (Route × Stop))
    (rr r' : Route) :
    qLookup (accRouteStep marked_stop q rr) r' =
      if r'.id = rr.id then
        some (match qLookup q rr with
          | none => marked_stop
          | some current =>
              if rr.stop_index marked_stop < rr.stop_index current then
                marked_stop
              else current)
      else qLookup q r' := by
  unfold accRouteStep
  rcases hcur : qLookup q rr with _ | current
  · dsimp only
    rw [qLookup_qUpdate]
  · dsimp only
    by_cases hbetter : rr.stop_index marked_stop < rr.stop_index current
    · rw [if_pos hbetter, qLookup_qUpdate]
      by_cases hid : r'.id = rr.id
      · rw [if_pos hid, if_pos hid, if_pos hbetter]
      · rw [if_neg hid, if_neg hid]
    · rw [if_neg hbetter]
      by_cases hid : r'.id = rr.id
      · rw [if_pos hid, if_neg hbetter]
        have heq : qLookup q r' = qLookup q rr := by
          unfold qLookup
          rw [show (fun p : Route × Stop => decide (p.1.id = r'.id)) =
            (fun p : Route × Stop => decide (p.1.id = rr.id)) from by
              funext p
              rw [hid]]
        rw [heq, hcur]
      · rw [if_neg hid]

theorem accRouteStep_mem (marked_stop : Stop) (q : List (Route × Stop))
    (rr : Route) (p : Route × Stop) (hp : p ∈ accRouteStep marked_stop q rr) :
    p ∈ q ∨ p = (rr, marked_stop) ∨
      (∃ p0 ∈ q, p.1 = p0.1 ∧ p.2 = marked_stop ∧ p.1.id = rr.id) := by
  unfold accRouteStep at hp
  rcases hcur : qLookup q rr with _ | current
  · rw [hcur] at hp
    exact qUpdate_mem q rr marked_stop p hp
  · rw [hcur] at hp
    have hp2 : p ∈ (if rr.stop_index marked_stop < rr.stop_index current then
        qUpdate q rr marked_stop else q) := hp
    by_cases hbetter : rr.stop_index marked_stop < rr.stop_index current
    · rw [if_pos hbetter] at hp2
      exact qUpdate_mem q rr marked_stop p hp2
    · rw [if_neg hbetter] at hp2
      left
      exact hp2

theorem qLookup_mem_entry (q : List (Route × Stop)) (r : Route) (s : Stop)
    (h : qLookup q r = some s) :
    ∃ p ∈ q, p.1.id = r.id ∧ p.2 = s := by
  unfold qLookup at h
  obtain ⟨p0, hp0, hp0s⟩ := Option.map_eq_some.mp h
  refine ⟨p0, List.mem_of_find?_eq_some hp0, ?_, hp0s⟩
  have hps := List.find?_some hp0
  exact of_decide_eq_true hps

theorem accInnerFold_lookup_notmem (marked_stop : Stop) (RS : List Route)
    (q : List (Route × Stop)) (r' : Route)
    (h : ∀ rr ∈ RS, r'.id ≠ rr.id) :
    qLookup (RS.foldl (accRouteStep marked_stop) q) r' = qLookup q r' := by
  induction RS generalizing q with
  | nil => rfl
  | cons rr rest ih =>
    rw [List.foldl_cons, ih _ (fun x hx => h x (List.mem_cons_of_mem _ hx)),
      accRouteStep_lookup, if_neg (h rr (by simp))]

theorem accInnerFold_lookup_mem (marked_stop : Stop) (RS : List Route)
    (q : List (Route × Stop)) (r' : Route)
    (hmem : r' ∈ RS) (hnodup : RS.Nodup)
    (hdistinct : ∀ rr ∈ RS, rr ≠ r' → r'.id ≠ rr.id) :
    qLookup (RS.foldl (accRouteStep marked_stop) q) r' =
      some (match qLookup q r' with
        | none => marked_stop
        | some current =>
            if r'.stop_index marked_stop < r'.stop_index current then
              marked_stop
            else current) := by
  induction RS generalizing q with
  | nil => simp at hmem
  | cons rr rest ih =>
    rw [List.foldl_cons]
    rcases List.mem_cons.mp hmem with rfl | hmem2
    · have hnot : r' ∉ rest := (List.nodup_cons.mp hnodup).1
      rw [accInnerFold_lookup_notmem marked_stop rest _ r' (fun x hx => by
        apply hdistinct x (List.mem_cons_of_mem _ hx)
        intro hc
        exact hnot (hc ▸ hx))]
      rw [accRouteStep_lookup, if_pos rfl]
    · have hne : rr ≠ r' := by
        intro hc
        exact (List.nodup_cons.mp hnodup).1 (hc ▸ hmem2)
      have hstep : qLookup (accRouteStep marked_stop q rr) r' = qLookup q r' := by
        rw [accRouteStep_lookup, if_neg (hdistinct rr (by simp) hne)]
      rw [ih _ hmem2 (List.nodup_cons.mp hnodup).2
        (fun x hx hxne => hdistinct x (List.mem_cons_of_mem _ hx) hxne), hstep]

theorem accInnerFold_entries (routes : List Route)
    (hinj : ∀ ⦃x⦄, x ∈ routes → ∀ ⦃y⦄, y ∈ routes → x.id = y.id → x = y)
    (Mp : List Stop) (marked_stop : Stop) (hms : marked_stop ∈ Mp)
    (RS : List Route)
    (hRS : ∀ rr ∈ RS, rr ∈ routes ∧ marked_stop ∈ rr.stops)
    (q : List (Route × Stop))
    (hq : ∀ p ∈ q, p.1 ∈ routes ∧ p.2 ∈ Mp ∧ p.2 ∈ p.1.stops) :
    ∀ p ∈ RS.foldl (accRouteStep marked_stop) q,
      p.1 ∈ routes ∧ p.2 ∈ Mp ∧ p.2 ∈ p.1.stops := by
  induction RS generalizing q with
  | nil => exact hq
  | cons rr rest ih =>
    rw [List.foldl_cons]
    apply ih (fun x hx => hRS x (List.mem_cons_of_mem _ hx))
    intro p hp
    rcases accRouteStep_mem marked_stop q rr p hp with hp1 | hp1 | ⟨p0, hp0, h1, h2, h3⟩
    · exact hq p hp1
    · obtain ⟨hr1, hr2⟩ := hRS rr (by simp)
      rw [hp1]
      exact ⟨hr1, hms, hr2⟩
    · obtain ⟨hr1, hr2⟩ := hRS rr (by simp)
      have hp0r := (hq p0 hp0).1
      have : p.1 = rr := by
        rw [h1]
        exact hinj (h1 ▸ hp0r) hr1 (h1 ▸ h3)
      rw [this, h2]
      exact ⟨hr1, hms, this ▸ hr2⟩

/-- Invariant of the accumulation map Q over the already-processed
marked stops. -/
def qInv (routes : List Route) (M : List Stop)
    (q : List (Route × Stop)) : Prop :=
  (∀ p ∈ q, p.1 ∈ routes ∧ p.2 ∈ M ∧ p.2 ∈ p.1.stops) ∧
  (∀ r ∈ routes, (∃ x ∈ M, x ∈ r.stops) →
    ∃ s, qLookup q r = some s ∧ s ∈ M ∧ s ∈ r.stops ∧
      ∀ p ∈ M, p ∈ r.stops → r.stop_index s ≤ r.stop_index p)

theorem accumulate_routes_inv (routes : List Route)
    (hids : (routes.map Route.id).Nodup) (marked : List Stop) :
    qInv routes marked (accumulate_routes routes marked) := by
  have hinj := List.inj_on_of_nodup_map hids
  have hroutesnd : routes.Nodup := hids.of_map Route.id
  induction marked using List.reverseRecOn with
  | nil =>
    constructor
    · intro p hp
      simp [accumulate_routes] at hp
    · intro r hr hserved
      obtain ⟨x, hx, -⟩ := hserved
      simp at hx
  | append_singleton M pstop ihM =>
    have hfold : accumulate_routes routes (M ++ [pstop]) =
        (get_routes_of_stop routes pstop).foldl (accRouteStep pstop)
          (accumulate_routes routes M) := by
      unfold accumulate_routes
      rw [List.foldl_append]
      rfl
    set RS := get_routes_of_stop routes pstop with hRSdef
    have hRSsub : ∀ rr ∈ RS, rr ∈ routes ∧ pstop ∈ rr.stops := by
      intro rr hrr
      rw [hRSdef] at hrr
      unfold get_routes_of_stop at hrr
      rw [List.mem_filter] at hrr
      exact ⟨hrr.1, of_decide_eq_true hrr.2⟩
    have hRSmem : ∀ r ∈ routes, pstop ∈ r.stops → r ∈ RS := by
      intro r hr hserve
      rw [hRSdef]
      unfold get_routes_of_stop
      rw [List.mem_filter]
      exact ⟨hr, decide_eq_true hserve⟩
    have hRSnodup : RS.Nodup := by
      rw [hRSdef]
      exact hroutesnd.filter _
    obtain ⟨ihEntries, ihMin⟩ := ihM
    constructor
    · rw [hfold]
      apply accInnerFold_entries routes hinj (M ++ [pstop]) pstop (by simp) RS hRSsub
      intro p hp
      obtain ⟨h1, h2, h3⟩ := ihEntries p hp
      exact ⟨h1, List.mem_append_left _ h2, h3⟩
    · intro r hr hserved
      rw [hfold]
      by_cases hrRS : r ∈ RS
      · have hlook := accInnerFold_lookup_mem pstop RS
          (accumulate_routes routes M) r hrRS hRSnodup (fun rr hrr hne => by
            intro hc
            exact hne (hinj ((hRSsub rr hrr).1) hr hc.symm))
        rcases hcur : qLookup (accumulate_routes routes M) r with _ | cur
        · rw [hcur] at hlook
          refine ⟨pstop, hlook, by simp, (hRSsub r hrRS).2, ?_⟩
          intro p hp hpserve
          rcases List.mem_append.mp hp with hp | hp
          · exfalso
            obtain ⟨s, hs, -, -, -⟩ := ihMin r hr ⟨p, hp, hpserve⟩
            rw [hcur] at hs
            exact Option.noConfusion hs
          · rw [List.mem_singleton.mp hp]
        · obtain ⟨pe, hpe, hpeid, hpe2⟩ :=
            qLookup_mem_entry _ r cur hcur
          obtain ⟨he1, he2, he3⟩ := ihEntries pe hpe
          have hper : pe.1 = r := hinj he1 hr hpeid
          have hcurM : cur ∈ M := hpe2 ▸ he2
          have hcurServe : cur ∈ r.stops := by
            rw [← hpe2, ← hper]
            exact he3
          obtain ⟨s, hs, hsM, hsServe, hsMin⟩ :=
            ihMin r hr ⟨cur, hcurM, hcurServe⟩
          rw [hcur] at hs
          have hscur : s = cur := Option.some_injective _ hs.symm
          subst hscur
          rw [hcur] at hlook
          have hlook2 : qLookup (RS.foldl (accRouteStep pstop)
              (accumulate_routes routes M)) r =
              some (if r.stop_index pstop < r.stop_index s then pstop else s) :=
            hlook
          by_cases hbetter : r.stop_index pstop < r.stop_index s
          · rw [if_pos hbetter] at hlook2
            refine ⟨pstop, hlook2, by simp, (hRSsub r hrRS).2, ?_⟩
            intro p hp hpserve
            rcases List.mem_append.mp hp with hp | hp
            · exact le_of_lt (lt_of_lt_of_le hbetter (hsMin p hp hpserve))
            · rw [List.mem_singleton.mp hp]
          · rw [if_neg hbetter] at hlook2
            refine ⟨s, hlook2, List.mem_append_left _ hsM, hsServe, ?_⟩
            intro p hp hpserve
            rcases List.mem_append.mp hp with hp | hp
            · exact hsMin p hp hpserve
            · rw [List.mem_singleton.mp hp]
              exact le_of_not_lt hbetter
      · have hnoserve : pstop ∉ r.stops := by
          intro hc
          exact hrRS (hRSmem r hr hc)
        have hlook := accInnerFold_lookup_notmem pstop RS
          (accumulate_routes routes M) r (fun rr hrr => by
            intro hc
            have : r = rr := hinj hr ((hRSsub rr hrr).1) hc
            exact hrRS (this ▸ hrr))
        have hservedM : ∃ x ∈ M, x ∈ r.stops := by
          obtain ⟨x, hx, hxs⟩ := hserved
          rcases List.mem_append.mp hx with hx | hx
          · exact ⟨x, hx, hxs⟩
          · rw [List.mem_singleton.mp hx] at hxs
            exact absurd hxs hnoserve
        obtain ⟨s, hs, hsM, hsServe, hsMin⟩ := ihMin r hr hservedM
        refine ⟨s, by rw [hlook]; exact hs, List.mem_append_left _ hsM, hsServe, ?_⟩
        intro p hp hpserve
        rcases List.mem_append.mp hp with hp | hp
        · exact hsMin p hp hpserve
        · rw [List.mem_singleton.mp hp] at hpserve
          exact absurd hpserve hnoserve

/-- C9: for every set of marked stops and every route serving at least
one marked stop, Q binds the route to a served marked stop whose stop
index in the route is minimal among all marked stops the route serves.
Route ids in the timetable are unique (the timetable assigns them by a
counter), stated as a Nodup hypothesis. -/
theorem claim_C9_accumulate_routes (routes : List Route) (marked : List Stop)
    (hids : (routes.map Route.id).Nodup) (r : Route) (hr : r ∈ routes)
    (hserved : ∃ p ∈ marked, p ∈ r.stops) :
    ∃ s, qLookup (accumulate_routes routes marked) r = some s ∧
      s ∈ marked ∧ s ∈ r.stops ∧
      ∀ p ∈ marked, p ∈ r.stops → r.stop_index s ≤ r.stop_index p :=
  (accumulate_routes_inv routes hids marked).2 r hr hserved

/-- Witness for C9 at a concrete route and marked-stop list: the
counterexample route of C6 serves both of its stops, and accumulation
from the marked list [B, A] binds it to A, the served stop of smaller
stop index. -/
theorem claim_C9_witness :
    ∃ s, qLookup (accumulate_routes [cexRoute] [cexStopB, cexStopA]) cexRoute =
        some s ∧
      s ∈ [cexStopB, cexStopA] ∧ s ∈ cexRoute.stops ∧
      ∀ p ∈ [cexStopB, cexStopA], p ∈ cexRoute.stops →
        cexRoute.stop_index s ≤ cexRoute.stop_index p :=
  claim_C9_accumulate_routes [cexRoute] [cexStopB, cexStopA] (by decide)
    cexRoute (by decide) ⟨cexStopA, by decide, by decide⟩

/- ------------------------------------------------------------------
Shared-mobility vehicle transfers (shared_mobility.py lines 200-238 and
base.py _add_vehicle_transfer lines 482-518).
------------------------------------------------------------------ -/

/-- RentingStation: a stop extended with its shared-mobility system id
and supported transport types. Modelled from the spec for the plural
transport_types accessed by base.py ("their supported transport types
intersect"); the class in src/pyraptor/model/shared_mobility.py stores
a single transport_type. -/
structure RentingStation where
  stop : Stop
  system_id : ℕ
  transport_types : List TransportType
deriving DecidableEq, Repr

/-- VehicleTransfer of shared_mobility.py: a transfer tagged with the
transport type it uses. -/
structure VehicleTransfer where
  from_stop : Stop
  to_stop : Stop
  transfer_time : ℤ
  transport_type : TransportType
deriving DecidableEq, Repr

/-- Python's int() conversion truncates toward zero. -/
def pyInt (q : ℚ) : ℤ :=
  if q < 0 then -(Int.floor (-q)) else Int.floor q

/-- Modelled from the spec: MEAN_FOOT_SPEED lives in pyraptor/util.py,
which is not under src/; the spec's speed table lists "Walk: human
speed", embedded as a nominal 4 km/h. -/
def MEAN_FOOT_SPEED : ℚ := 4

/-- VEHICLE_SPEED of shared_mobility.py: a dict with exactly the walk,
bike and car keys; none embeds the KeyError on any other type. -/
def VEHICLE_SPEED : TransportType → Option ℚ
  | .walk => some MEAN_FOOT_SPEED
  | .bike => some 20
  | .car => some 50
  | _ => none

/-- VehicleTransfer.get_vehicle_transfer: transfer time is
`int(dist * 3600 / speed)`. The geodesic distance between the stations
is an external numeric computation (geopy), passed in as `dist`. -/
def VehicleTransfer.get_vehicle_transfer (sa sb : RentingStation)
    (transport_type : TransportType) (speed : ℚ) (dist : ℚ) :
    VehicleTransfer × VehicleTransfer :=
  let time : ℤ := pyInt (dist * 3600 / speed)
  ({ from_stop := sa.stop, to_stop := sb.stop, transfer_time := time,
     transport_type := transport_type },
   { from_stop := sb.stop, to_stop := sa.stop, transfer_time := time,
     transport_type := transport_type })

/-- Shared-mobility configuration of base.py. -/
structure SmConfig where
  preferred_vehicle : TransportType
  enable_car : Bool
deriving DecidableEq, Repr

/-- np.argmax over a list: the first index of the maximal value. -/
def argmaxIdx (l : List ℚ) : ℕ :=
  (l.enum.foldl (fun acc p => if acc.2 < p.2 then p else acc)
    (0, l.headD 0)).1

/-- Transport-type choice of _add_vehicle_transfer: the preferred
vehicle when available, otherwise the common type of maximal speed
(np.argmax); an error embeds the KeyError on a type missing from
VEHICLE_SPEED. -/
def pickTransportType (cfg : SmConfig) (common : List TransportType) :
    Except Unit TransportType :=
  if cfg.preferred_vehicle ∈ common then .ok cfg.preferred_vehicle
  else
    match common.mapM VEHICLE_SPEED with
    | none => .error ()
    | some speeds => .ok (common.getD (argmaxIdx speeds) cfg.preferred_vehicle)

/-- Common transport types of two renting stations as computed by
_add_vehicle_transfer steps 2.1-2.2: the intersection of the supported
types, with Car removed when car transport is disabled. -/
def commonTypes (cfg : SmConfig) (stop_a stop_b : RentingStation) :
    List TransportType :=
  let common := stop_a.transport_types.filter
    (fun t => decide (t ∈ stop_b.transport_types))
  if cfg.enable_car then common
  else common.filter (fun t => decide (t ≠ TransportType.car))

/-- Transport-type choice plus its speed lookup: combines steps 3.1-3.2
of _add_vehicle_transfer with the VEHICLE_SPEED dict access that
get_vehicle_transfer performs when called without an explicit speed. -/
def pickSpeed (cfg : SmConfig) (common : List TransportType) :
    Except Unit (TransportType × ℚ) :=
  match pickTransportType cfg common with
  | .error e => .error e
  | .ok best =>
    match VEHICLE_SPEED best with
    | none => .error ()
    | some speed => .ok (best, speed)

/-- BaseSharedMobRaptor._add_vehicle_transfer: same system id, common
transport types (car removed when disabled), choose the type, build the
A-to-B transfer and add it to the pool only when the source is not in
no_source and the destination is not in no_dest. -/
def add_vehicle_transfer (cfg : SmConfig)
    (no_source no_dest : List RentingStation)
    (pool : List VehicleTransfer)
    (stop_a stop_b : RentingStation) (dist : ℚ) :
    Except Unit (List VehicleTransfer) :=
  if stop_a.system_id = stop_b.system_id then
    if (commonTypes cfg stop_a stop_b).isEmpty then .ok pool
    else
      match pickSpeed cfg (commonTypes cfg stop_a stop_b) with
      | .error e => .error e
      | .ok (best, speed) =>
          let t_ab := (VehicleTransfer.get_vehicle_transfer stop_a stop_b
            best speed dist).1
          if stop_a ∉ no_source ∧ stop_b ∉ no_dest then .ok (pool ++ [t_ab])
          else .ok pool
  else .ok pool

/-- Renting stations used by the concrete shared-mobility witnesses. -/
def rsA : RentingStation :=
  { stop := { id := 20, stationId := 20 }, system_id := 1,
    transport_types := [.bike] }

/-- Second renting station of the shared-mobility witnesses. -/
def rsB : RentingStation :=
  { stop := { id := 21, stationId := 21 }, system_id := 1,
    transport_types := [.bike] }

/-- C7 counterexample: at distance 1/100 km and speed 20 km/h the exact
travel time is 1.8 s; the code stores int(1.8) = 1 while the claimed
ceiling is 2. -/
theorem claim_C7_counterexample :
    (VehicleTransfer.get_vehicle_transfer rsA rsB .bike 20 (1/100)).1.transfer_time
      = 1 ∧
    Int.ceil ((3600 : ℚ) * (1/100) / 20) = 2 ∧ (1 : ℤ) ≠ 2 := by
  refine ⟨?_, ?_, by decide⟩
  · show pyInt ((1/100 : ℚ) * 3600 / 20) = 1
    unfold pyInt
    norm_num
  · have harg : ((3600 : ℚ) * (1/100) / 20) = 9/5 := by norm_num
    rw [harg, Int.ceil_eq_iff]
    constructor
    · norm_num
    · norm_num

/-- C7 amended: for non-negative distance and positive speed the stored
transfer time is the floor (Python int truncation) of
distance · 3600 / speed, not the ceiling; and no vehicle transfer is
added to the pool when the source station is in no_source or the
destination station is in no_dest: the pool is returned unchanged, or
the call fails earlier on a transport type missing from the speed
table. -/
theorem claim_C7_vehicle_transfer (sa sb : RentingStation)
    (tt : TransportType) (speed dist : ℚ) (hd : 0 ≤ dist) (hs : 0 < speed)
    (cfg : SmConfig) (no_source no_dest : List RentingStation)
    (pool : List VehicleTransfer) :
    ((VehicleTransfer.get_vehicle_transfer sa sb tt speed dist).1.transfer_time =
      Int.floor (dist * 3600 / speed)) ∧
    (sa ∈ no_source ∨ sb ∈ no_dest →
      add_vehicle_transfer cfg no_source no_dest pool sa sb dist = .ok pool ∨
      add_vehicle_transfer cfg no_source no_dest pool sa sb dist = .error ()) := by
  constructor
  · show pyInt (dist * 3600 / speed) = Int.floor (dist * 3600 / speed)
    unfold pyInt
    rw [if_neg (not_lt.mpr (by positivity))]
  · intro hunavail
    have hcond : ¬ (sa ∉ no_source ∧ sb ∉ no_dest) := by
      rcases hunavail with h | h
      · intro hc
        exact hc.1 h
      · intro hc
        exact hc.2 h
    unfold add_vehicle_transfer
    by_cases hsys : sa.system_id = sb.system_id
    · rw [if_pos hsys]
      by_cases hemp : (commonTypes cfg sa sb).isEmpty
      · rw [if_pos hemp]
        left
        rfl
      · rw [if_neg hemp]
        rcases hp : pickSpeed cfg (commonTypes cfg sa sb) with e | bs
        · right
          rfl
        · obtain ⟨best, speed2⟩ := bs
          left
          show (if sa ∉ no_source ∧ sb ∉ no_dest then
              Except.ok (pool ++
                [(VehicleTransfer.get_vehicle_transfer sa sb best speed2 dist).1])
            else Except.ok pool) = Except.ok pool
          rw [if_neg hcond]
    · rw [if_neg hsys]
      left
      rfl

/-- Witness for the amended C7: concrete formula instance and a
concrete unavailable source station keeping the pool unchanged. -/
theorem claim_C7_witness :
    ((VehicleTransfer.get_vehicle_transfer rsA rsB .bike 20 (1/100)).1.transfer_time =
      Int.floor ((1/100 : ℚ) * 3600 / 20)) ∧
    (add_vehicle_transfer { preferred_vehicle := .bike, enable_car := false }
        [rsA] [] [] rsA rsB (1/100) = .ok [] ∨
      add_vehicle_transfer { preferred_vehicle := .bike, enable_car := false }
        [rsA] [] [] rsA rsB (1/100) = .error ()) :=
  ⟨(claim_C7_vehicle_transfer rsA rsB .bike 20 (1/100) (by norm_num)
      (by norm_num) { preferred_vehicle := .bike, enable_car := false }
      [rsA] [] []).1,
    (claim_C7_vehicle_transfer rsA rsB .bike 20 (1/100) (by norm_num)
      (by norm_num) { preferred_vehicle := .bike, enable_car := false }
      [rsA] [] []).2 (Or.inl (by decide))⟩

/- ------------------------------------------------------------------
DistanceCriterion.update (structures.py lines 1098-1190).
------------------------------------------------------------------ -/

/-- Error kinds raised by the criterion update chain: dict KeyError,
the TypeError of _get_best_stop_criterion on a non-multi-criteria
label, and its ValueError on a missing criterion kind. -/
inductive UpdateErr where
  | keyError
  | typeError
  | valueError
deriving DecidableEq, Repr

/-- Values of the best_labels dictionary: single-criterion Labels and
MultiCriteriaLabels share the BaseLabel interface, but only the latter
carry criteria. -/
inductive BestLabel where
  | single (earliest_arrival_time : ℤ)
  | multi (l : MultiCriteriaLabel)
deriving DecidableEq, Repr

/-- Dictionary access best_labels[stop]; none embeds the KeyError. -/
def bestLookup (best_labels : List (Stop × BestLabel)) (s : Stop) :
    Option BestLabel :=
  (best_labels.find? (fun p => decide (p.1 = s))).map (fun p => p.2)

/-- _get_best_stop_criterion of structures.py: the first criterion of
the requested kind in the best label of the stop; errors embed the
KeyError on a missing stop, the TypeError on a non-multi-criteria label
and the ValueError on a missing criterion kind. -/
def get_best_stop_criterion (kind : CriterionKind) (stop : Stop)
    (best_labels : List (Stop × BestLabel)) : Except UpdateErr Criterion :=
  match bestLookup best_labels stop with
  | none => .error .keyError
  | some (.single _) => .error .typeError
  | some (.multi lbl) =>
    match lbl.criteria.find? (fun c => decide (c.kind = kind)) with
    | none => .error .valueError
    | some c => .ok c

/-- LabelUpdate of structures.py. -/
structure LabelUpdate where
  boarding_stop : Stop
  arrival_stop : Stop
  old_trip : Option Trip
  new_trip : Option Trip
  best_labels : List (Stop × BestLabel)

/-- _get_same_trip_distance of structures.py: difference of the
cumulative travelled distances of the trip at the two stops; the error
embeds the KeyError (or the attribute error on a missing trip) when a
stop has no stop time on the trip. -/
def get_same_trip_distance (trip : Option Trip) (from_stop to_stop : Stop) :
    Except UpdateErr ℚ :=
  match trip with
  | none => .error .keyError
  | some t =>
    match t.get_stop_time from_stop, t.get_stop_time to_stop with
    | some a, some b => .ok (b.travelled_distance - a.travelled_distance)
    | _, _ => .error .keyError

/-- DistanceCriterion.update of structures.py: the same-trip distance
from the boarding stop to the arrival stop is computed first, then the
distance criterion of the best label at the boarding stop, and the new
raw value is their sum. -/
def DistanceCriterion.update (c : Criterion) (data : LabelUpdate) :
    Except UpdateErr Criterion :=
  match get_same_trip_distance data.new_trip data.boarding_stop
      data.arrival_stop with
  | .error e => .error e
  | .ok same_trip_distance =>
    match get_best_stop_criterion .distance data.boarding_stop
        data.best_labels with
    | .error e => .error e
    | .ok prev =>
      .ok { kind := c.kind, weight := c.weight,
            raw_value := prev.raw_value + same_trip_distance,
            upper_bound := c.upper_bound }

/-- Distance criterion instance used in the C8 fixtures. -/
def w8DistCrit : Criterion :=
  { kind := .distance, weight := 1, raw_value := 7, upper_bound := 100 }

/-- Best label stored at stop A in the C8 fixtures. -/
def w8Label : MultiCriteriaLabel :=
  { trip := none, boarding_stop := cexStopA, criteria := [w8DistCrit] }

/-- Best-labels dictionary of the C8 fixtures: stop A carries a
multi-criteria label holding a distance criterion. -/
def w8Best : List (Stop × BestLabel) :=
  [(cexStopA, BestLabel.multi w8Label)]

/-- Trip of the C8 counterexample, serving only stop B. -/
def cex8Trip : Trip :=
  { id := .sched 9, transport_type := .rail,
    stop_times := [{ stop := cexStopB, dts_arr := 0, dts_dep := 0 }] }

/-- Label update of the C8 counterexample: the boarding stop is not
served by the new trip, so the same-trip distance lookup raises even
though the best label at the boarding stop carries a distance
criterion. -/
def cex8Update : LabelUpdate :=
  { boarding_stop := cexStopA, arrival_stop := cexStopB,
    old_trip := none, new_trip := some cex8Trip, best_labels := w8Best }

/-- C8 counterexample: best_labels[boarding_stop] carries a
DistanceCriterion, yet update raises (a KeyError), because the boarding
stop has no stop time on the new trip; so the claimed "errors iff the
criterion is absent" equivalence fails. -/
theorem claim_C8_counterexample :
    get_best_stop_criterion .distance cex8Update.boarding_stop
      cex8Update.best_labels = .ok w8DistCrit ∧
    DistanceCriterion.update w8DistCrit cex8Update =
      .error UpdateErr.keyError :=
  ⟨rfl, rfl⟩

/-- C8 amended: when the new trip serves both the boarding stop and the
arrival stop, the updated raw value is the raw distance of the best
label at the boarding stop plus the difference of the trip's cumulative
distances at the arrival and boarding stops, and the update errors
exactly when no DistanceCriterion can be extracted from
best_labels[boarding_stop]; when the trip misses either stop, the
update errors even though the criterion may be present. -/
theorem claim_C8_distance_update (c : Criterion) (data : LabelUpdate)
    (t : Trip) (tstB tstA : TripStopTime)
    (ht : data.new_trip = some t)
    (hb : t.get_stop_time data.boarding_stop = some tstB)
    (ha : t.get_stop_time data.arrival_stop = some tstA) :
    (∀ prev, get_best_stop_criterion .distance data.boarding_stop
        data.best_labels = .ok prev →
      DistanceCriterion.update c data = .ok
        { kind := c.kind, weight := c.weight,
          raw_value := prev.raw_value +
            (tstA.travelled_distance - tstB.travelled_distance),
          upper_bound := c.upper_bound }) ∧
    (∀ e, DistanceCriterion.update c data = .error e ↔
      get_best_stop_criterion .distance data.boarding_stop
        data.best_labels = .error e) := by
  have hsame1 : get_same_trip_distance data.new_trip data.boarding_stop
      data.arrival_stop =
      get_same_trip_distance (some t) data.boarding_stop data.arrival_stop := by
    rw [ht]
  have hsame2 : get_same_trip_distance (some t) data.boarding_stop
      data.arrival_stop =
      (match t.get_stop_time data.boarding_stop,
          t.get_stop_time data.arrival_stop with
        | some a, some b => Except.ok (b.travelled_distance - a.travelled_distance)
        | _, _ => (Except.error UpdateErr.keyError : Except UpdateErr ℚ)) := rfl
  have hsame : get_same_trip_distance data.new_trip data.boarding_stop
      data.arrival_stop =
      .ok (tstA.travelled_distance - tstB.travelled_distance) := by
    rw [hsame1, hsame2, hb, ha]
  constructor
  · intro prev hprev
    unfold DistanceCriterion.update
    rw [hsame, hprev]
  · intro e
    unfold DistanceCriterion.update
    rw [hsame]
    rcases hbest : get_best_stop_criterion .distance data.boarding_stop
        data.best_labels with e2 | prev
    · constructor
      · intro h
        cases h
        rfl
      · intro h
        cases h
        rfl
    · constructor
      · intro h
        exact Except.noConfusion h
      · intro h
        exact Except.noConfusion h

/-- Trip of the C8 witness, serving stop A (cumulative distance 2) then
stop B (cumulative distance 5). -/
def w8Trip : Trip :=
  { id := .sched 8, transport_type := .rail,
    stop_times := [
      { stop := cexStopA, dts_arr := 0, dts_dep := 0, travelled_distance := 2 },
      { stop := cexStopB, dts_arr := 10, dts_dep := 10, travelled_distance := 5 }] }

/-- Label update of the C8 witness. -/
def w8Update : LabelUpdate :=
  { boarding_stop := cexStopA, arrival_stop := cexStopB,
    old_trip := none, new_trip := some w8Trip, best_labels := w8Best }

/-- Witness for the amended C8 on a concrete in-range update: the trip
serves both stops and the best label carries a distance criterion with
raw value 7, so the update succeeds with raw value 7 + (5 - 2). -/
theorem claim_C8_witness :
    DistanceCriterion.update w8DistCrit w8Update =
      .ok { kind := .distance, weight := 1,
            raw_value := w8DistCrit.raw_value + ((5 : ℚ) - 2),
            upper_bound := 100 } :=
  (claim_C8_distance_update w8DistCrit w8Update w8Trip
    { stop := cexStopA, dts_arr := 0, dts_dep := 0, travelled_distance := 2 }
    { stop := cexStopB, dts_arr := 10, dts_dep := 10, travelled_distance := 5 }
    rfl rfl rfl).1 w8DistCrit rfl

/- ------------------------------------------------------------------
The McRAPTOR round engine (mcraptor.py McRaptorAlgorithm.run,
traverse_route and add_transfer_time).

mcraptor.py manipulates labels through an interface
(`MultiCriteriaLabel(earliest_arrival_time=…, fare=…)`, `update`,
`update_trip`, scalar `total_cost`) that predates the criteria classes
kept in structures.py and whose class is not under src/. Modelled from
the spec: the label carries its trip, boarding stop, arrival time, fare
and boarding count; `update` replaces the arrival time, adds to the
fare and replaces the boarding stop only when one is given; `update_trip`
assigns the new trip and boarding stop when the trip differs; the
total cost is the weighted sum of the criteria (arrival time and fare,
both with weight 1). Fares are embedded as integers so that concrete
runs evaluate by kernel reduction.

Synthetic TransferTrip ids embed `uuid.uuid4()`: the run takes the
stream `u` of drawn identifiers and a counter selecting the next draw.
Python set iteration order (for marked stops) is embedded as
insertion-ordered deduplicated lists.
------------------------------------------------------------------ -/

instance : Inhabited Stop := ⟨{ id := 0, stationId := 0 }⟩

/-- Label of the mcraptor.py round engine (see the section comment). -/
structure McLabel where
  earliest_arrival_time : ℤ
  fare : ℤ
  trip : Option Trip
  boarding_stop : Stop
  n_trips : ℕ
deriving DecidableEq, Repr

/-- Scalar total cost of an mcraptor label: weight-1 sum of the arrival
time and fare criteria. -/
def McLabel.total_cost (l : McLabel) : ℤ :=
  l.earliest_arrival_time + l.fare

/-- Label update: new arrival time, fare addition, and the boarding
stop only when provided. -/
def McLabel.update (l : McLabel) (arr : ℤ) (fare_addition : ℤ)
    (boarding_stop : Option Stop) : McLabel :=
  { l with
    earliest_arrival_time := arr
    fare := l.fare + fare_addition
    boarding_stop := boarding_stop.getD l.boarding_stop }

/-- Trip assignment: when the trip differs from the current one, board
it at the given stop (one more boarding); otherwise keep the label. -/
def McLabel.update_trip (l : McLabel) (t : Trip) (boarding_stop : Stop) :
    McLabel :=
  if l.trip = some t then l
  else
    { l with
      trip := some t
      boarding_stop := boarding_stop
      n_trips := l.n_trips + 1 }

/-- Bags of mcraptor labels. -/
abbrev McBag := Bag McLabel

/-- Timetable slice consumed by the mcraptor round engine. -/
structure McTimetable where
  stops : List Stop
  routes : List Route
  transfers : List Transfer
deriving Repr

/-- Per-round dictionary Stop → Bag, initialized with an empty bag for
every stop of the timetable. -/
def emptyBags (stops : List Stop) : List (Stop × McBag) :=
  stops.map (fun s => (s, {}))

/-- Dictionary read bag_round_stop[k][stop]; the default empty bag
totalises the KeyError on a stop outside the timetable. -/
def bagAt (d : List (Stop × McBag)) (s : Stop) : McBag :=
  ((d.find? (fun p => decide (p.1 = s))).map (fun p => p.2)).getD {}

/-- Dictionary write bag_round_stop[k][stop] = bag: replace in place,
appending when the key is new. -/
def bagSet (d : List (Stop × McBag)) (s : Stop) (b : McBag) :
    List (Stop × McBag) :=
  if (d.find? (fun p => decide (p.1 = s))).isSome then
    d.map (fun p => if p.1 = s then (p.1, b) else p)
  else d ++ [(s, b)]

/-- Python set insertion: append unless present. -/
def listAdd (m : List Stop) (s : Stop) : List Stop :=
  if s ∈ m then m else m ++ [s]

/-- Python set union, as insertion-ordered deduplication. -/
def listUnion (a b : List Stop) : List Stop :=
  b.foldl listAdd (a.foldl listAdd [])

/-- Python list indexing with negative wrap-around (remaining[-1] is
the last element). -/
def pyGet (l : List Stop) (i : ℤ) : Stop :=
  if i < 0 then l.getD (l.length - (-i).toNat) default
  else l.getD i.toNat default

/-- Accumulator of traverse_route: the round-k dictionary, the marked
set and the running route bag. -/
structure TravAcc where
  bags : List (Stop × McBag)
  marked : List Stop
  route_bag : List McLabel

/-- Step 1 of the traverse_route loop body, per label: ride the label's
trip to the current stop, paying the fare collected at the previous
stop of the remaining segment. -/
def travUpdateLabel (current : Stop) (remaining : List Stop) (idx : ℕ)
    (l : McLabel) : McLabel :=
  let arr := ((l.trip.map (fun tr => (tr.get_stop_time_d current).dts_arr)).getD 0)
  let previous := pyGet remaining ((idx : ℤ) - 1)
  let from_fare := (l.trip.map (fun tr => tr.get_fare previous)).getD 0
  l.update arr from_fare none

/-- Step 3 of the traverse_route loop body, per label: re-assign the
earliest boardable trip of the route at the current stop, dropping the
label when none exists. -/
def travAssign (marked_route : Route) (current : Stop) (l : McLabel) :
    Option McLabel :=
  match marked_route.earliest_trip l.earliest_arrival_time current with
  | none => none
  | some et => some (l.update_trip et current)

/-- Body of the `for current_stop_idx, current_stop in
enumerate(remaining_stops_in_route)` loop of traverse_route: update the
route-bag labels along their trips (step 1), merge the route bag into
the round bag of the current stop and mark it on change (step 2), merge
the previous round's bag back and re-assign the earliest boardable
trips, dropping labels with none (step 3). -/
def traverseStop (kprev : List (Stop × McBag)) (marked_route : Route)
    (remaining : List Stop) (acc : TravAcc) (p : ℕ × Stop) : TravAcc :=
  let current := p.2
  let updated_labels := acc.route_bag.map (travUpdateLabel current remaining p.1)
  let route_bag : McBag := { labels := updated_labels, updated := false }
  let merged := Bag.merge McLabel.total_cost (bagAt acc.bags current) route_bag
  let bags := bagSet acc.bags current merged
  let marked := if merged.updated then listAdd acc.marked current else acc.marked
  let route_bag := Bag.merge McLabel.total_cost route_bag (bagAt kprev current)
  let updated_labels := route_bag.labels.filterMap (travAssign marked_route current)
  { bags := bags, marked := marked, route_bag := updated_labels }

/-- traverse_route of mcraptor.py: for every marked (route, stop) pair,
walk the route from the marked stop onwards with a fresh route bag. -/
def traverse_route (kprev : List (Stop × McBag))
    (route_marked_stops : List (Route × Stop))
    (bags0 : List (Stop × McBag)) : List (Stop × McBag) × List Stop :=
  route_marked_stops.foldl (fun acc rp =>
    let marked_route := rp.1
    let marked_stop_index := marked_route.stop_index rp.2
    let remaining := marked_route.stops.drop marked_stop_index
    let res := remaining.enum.foldl
      (traverseStop kprev marked_route remaining)
      { bags := acc.1, marked := acc.2, route_bag := [] }
    (res.bags, res.marked)) (bags0, [])

/-- Transfers.stop_to_stop_idx[(a, b)].transfer_time: the dict is built
by successive adds, so the last matching transfer wins; 0 totalises the
KeyError. -/
def get_transfer_time (transfers : List Transfer) (a b : Stop) : ℤ :=
  ((transfers.reverse.find?
    (fun t => decide (t.from_stop = a ∧ t.to_stop = b))).map
      (fun t => t.transfer_time)).getD 0

/-- Accumulator of add_transfer_time: the round dictionary, the marked
transfer stops and the uuid draw counter. -/
structure XferAcc where
  bags : List (Stop × McBag)
  marked : List Stop
  ctr : ℕ

/-- Body of the `for label in labels` loop of add_transfer_time: shift
the label by the walking transfer time and board a fresh TransferTrip
whose id is the next uuid draw. As in the source, the TransferTrip
departure time is read from the label after its arrival time was
already updated, so dep and arr both equal the post-transfer arrival
time. -/
def transferBody (u : ℕ → ℕ) (transfers : List Transfer)
    (current other : Stop) (st : List McLabel × ℕ) (l : McLabel) :
    List McLabel × ℕ :=
  let transfer_arrival := l.earliest_arrival_time +
    get_transfer_time transfers current other
  let l1 := l.update transfer_arrival 0 (some current)
  let transfer_trip : Trip :=
    { id := .transfer (u st.2), transport_type := .walk,
      stop_times := [
        { stop := current, dts_arr := transfer_arrival,
          dts_dep := transfer_arrival },
        { stop := other, dts_arr := transfer_arrival,
          dts_dep := transfer_arrival }] }
  let l2 := l1.update_trip transfer_trip current
  (st.1 ++ [l2], st.2 + 1)

/-- Body of the `for other_stop in other_station_stops` loop of
add_transfer_time: build the temp bag of transferred labels, merge it
into the round bag of the destination stop and mark it on change. -/
def transferStep (u : ℕ → ℕ) (transfers : List Transfer) (current : Stop)
    (acc : XferAcc) (other : Stop) : XferAcc :=
  let src := (bagAt acc.bags current).labels
  let built := src.foldl (transferBody u transfers current other)
    ([], acc.ctr)
  let temp_bag : McBag := { labels := built.1, updated := false }
  let merged := Bag.merge McLabel.total_cost (bagAt acc.bags other) temp_bag
  { bags := bagSet acc.bags other merged,
    marked := if merged.updated then listAdd acc.marked other else acc.marked,
    ctr := built.2 }

/-- add_transfer_time of mcraptor.py: for every marked stop, relax the
outgoing walking transfers. -/
def add_transfer_time (u : ℕ → ℕ) (transfers : List Transfer)
    (marked_stops : List Stop) (bags : List (Stop × McBag)) (ctr : ℕ) :
    XferAcc :=
  marked_stops.foldl (fun acc current =>
    let other_station_stops :=
      (transfers.filter (fun t => decide (t.from_stop = current))).map
        (fun t => t.to_stop)
    other_station_stops.foldl (transferStep u transfers current) acc)
    { bags := bags, marked := [], ctr := ctr }

/-- The `for k in range(1, rounds + 1)` loop of McRaptorAlgorithm.run:
each round copies the previous dictionary and, when stops are still
marked, runs accumulation, traversal and transfer relaxation; when no
stop is marked the loop breaks, leaving the remaining rounds at their
initialization value (a dictionary of empty bags). Returns the
dictionaries of rounds kcur.., the final actual_rounds and the final
draw counter. -/
def mcLoop (u : ℕ → ℕ) (tt : McTimetable) :
    ℕ → List (Stop × McBag) → List Stop → ℕ → ℕ → ℕ →
    List (List (Stop × McBag)) × ℕ × ℕ
  | 0, _, _, ctr, actual, _ => ([], actual, ctr)
  | n + 1, prev, marked, ctr, actual, kcur =>
    if marked.isEmpty then
      (prev :: List.replicate n (emptyBags tt.stops), actual, ctr)
    else
      let q := accumulate_routes tt.routes marked
      let trav := traverse_route prev q prev
      let xfer := add_transfer_time u tt.transfers trav.2 trav.1 ctr
      let next_marked := listUnion trav.2 xfer.marked
      let rest := mcLoop u tt n xfer.bags next_marked xfer.ctr kcur (kcur + 1)
      (xfer.bags :: rest.1, rest.2)

/-- McRaptorAlgorithm.run: initialize the round-0 dictionary with a
departure label at every origin stop, then run the rounds. Returns
bag_round_stop as a list of per-round dictionaries (index = round) and
actual_rounds. -/
def mcRun (u : ℕ → ℕ) (tt : McTimetable) (from_stops : List Stop)
    (dep_secs : ℤ) (rounds : ℕ) :
    List (List (Stop × McBag)) × ℕ :=
  let bag0 := from_stops.foldl (fun d fs =>
    bagSet d fs (Bag.add (bagAt d fs)
      { earliest_arrival_time := dep_secs, fare := 0, trip := none,
        boarding_stop := fs, n_trips := 0 }))
    (emptyBags tt.stops)
  let res := mcLoop u tt rounds bag0 from_stops 0 0 1
  (bag0 :: res.1, res.2.1)

/-- Stop A of the round-engine fixtures. -/
def mcStopA : Stop := { id := 1, stationId := 1 }

/-- Stop B of the round-engine fixtures. -/
def mcStopB : Stop := { id := 2, stationId := 2 }

/-- Stop C of the round-engine fixtures. -/
def mcStopC : Stop := { id := 3, stationId := 3 }

/-- Direct trip A to C: departs 10, arrives 100, fare 50 (fares are
read from the stop time of the boarding-side stop). -/
def mcTrip1 : Trip :=
  { id := .sched 1, transport_type := .bus,
    stop_times := [
      { stop := mcStopA, dts_arr := 10, dts_dep := 10, fare := 50 },
      { stop := mcStopC, dts_arr := 100, dts_dep := 100 }] }

/-- Feeder trip A to B: departs 10, arrives 20, no fare. -/
def mcTrip2 : Trip :=
  { id := .sched 2, transport_type := .bus,
    stop_times := [
      { stop := mcStopA, dts_arr := 10, dts_dep := 10 },
      { stop := mcStopB, dts_arr := 20, dts_dep := 20 }] }

/-- Connecting trip B to C: departs 30, arrives 110, no fare. -/
def mcTrip3 : Trip :=
  { id := .sched 3, transport_type := .bus,
    stop_times := [
      { stop := mcStopB, dts_arr := 30, dts_dep := 30 },
      { stop := mcStopC, dts_arr := 110, dts_dep := 110 }] }

/-- Routes of the three fixture trips. -/
def mcRoute1 : Route := { id := 1, trips := [mcTrip1], stops := [mcStopA, mcStopC] }

/-- Route of the feeder trip. -/
def mcRoute2 : Route := { id := 2, trips := [mcTrip2], stops := [mcStopA, mcStopB] }

/-- Route of the connecting trip. -/
def mcRoute3 : Route := { id := 3, trips := [mcTrip3], stops := [mcStopB, mcStopC] }

/-- Timetable whose cheapest way to C arrives later than the fastest:
the direct trip reaches C at 100 with total cost 150, the two-trip path
at 110 with total cost 110. -/
def mcTT4 : McTimetable :=
  { stops := [mcStopA, mcStopB, mcStopC],
    routes := [mcRoute1, mcRoute2, mcRoute3], transfers := [] }

/-- Timetable with a single feeder route, used to expose the empty
rounds left behind when the loop breaks before exhausting the round
budget. -/
def mcTTE : McTimetable :=
  { stops := [mcStopA, mcStopB], routes := [mcRoute2], transfers := [] }

/-- Timetable with a walking transfer B to C, used to expose the uuid
dependence of TransferTrip ids. -/
def mcXferBC : Transfer :=
  { from_stop := mcStopB, to_stop := mcStopC, transfer_time := 5 }

/-- Timetable with the walking transfer attached. -/
def mcTTX : McTimetable :=
  { stops := [mcStopA, mcStopB, mcStopC], routes := [mcRoute2],
    transfers := [mcXferBC] }

/-- C3 counterexample: the same timetable, origin, departure time and
round budget run with two different uuid streams yield different
bag_round_stop mappings, because the synthetic TransferTrip stored in
the label at stop C carries the drawn uuid in its id and
same_type_and_id compares ids. -/
theorem claim_C3_counterexample :
    mcRun (fun n => 100 + n) mcTTX [mcStopA] 0 1 ≠
      mcRun (fun n => 200 + n) mcTTX [mcStopA] 0 1 := by
  decide

/-- C4 counterexample. First run (round budget 4, search settles after
round 2): round 3 holds the copied bag at stop B but round 4 keeps its
initialization value, an empty bag, so bag[4][B] dominates nothing of
bag[3][B]. Second run: at stop C the single label of round 1 arrives at
100 (total cost 150) and the single label of round 2 arrives at 110
(total cost 110), so the earliest arrival recorded at C increases from
round 1 to round 2. -/
theorem claim_C4_counterexample :
    ((bagAt ((mcRun (fun n => n) mcTTE [mcStopA] 0 4).1.getD 3 []) mcStopB).labels
        ≠ [] ∧
      (bagAt ((mcRun (fun n => n) mcTTE [mcStopA] 0 4).1.getD 4 []) mcStopB).labels
        = []) ∧
    ((bagAt ((mcRun (fun n => n) mcTT4 [mcStopA] 0 2).1.getD 1 []) mcStopC).labels.map
        McLabel.earliest_arrival_time = [100] ∧
      (bagAt ((mcRun (fun n => n) mcTT4 [mcStopA] 0 2).1.getD 2 []) mcStopC).labels.map
        McLabel.earliest_arrival_time = [110]) := by
  decide

theorem bagAt_mapSet (d : List (Stop × McBag)) (s : Stop) (b : McBag)
    (s' : Stop) :
    bagAt (d.map (fun p => if p.1 = s then (p.1, b) else p)) s' =
      if (d.find? (fun p => decide (p.1 = s'))).isSome ∧ s' = s then b
      else bagAt d s' := by
  induction d with
  | nil =>
    by_cases h : s' = s
    · simp [bagAt, h]
    · simp [bagAt, h]
  | cons a t ih =>
    by_cases ha : a.1 = s
    · by_cases h : s' = s
      · have haid : a.1 = s' := by rw [ha, h]
        simp only [List.map_cons, if_pos ha]
        unfold bagAt
        rw [List.find?_cons_of_pos _ (by simp [haid]),
          List.find?_cons_of_pos _ (by simp [haid])]
        simp [h]
      · have haid : ¬ a.1 = s' := by
          rw [ha]
          intro hc
          exact h hc.symm
        simp only [List.map_cons, if_pos ha]
        unfold bagAt
        rw [List.find?_cons_of_neg _ (by simp [haid]),
          List.find?_cons_of_neg _ (by simp [haid])]
        have := ih
        unfold bagAt at this
        rw [this]
    · simp only [List.map_cons, if_neg ha]
      by_cases ha2 : a.1 = s'
      · have hss : ¬ (s' = s) := by
          intro hc
          exact ha (ha2.symm ▸ hc ▸ rfl)
        unfold bagAt
        rw [List.find?_cons_of_pos _ (by simp [ha2]),
          List.find?_cons_of_pos _ (by simp [ha2])]
        simp [hss]
      · unfold bagAt
        rw [List.find?_cons_of_neg _ (by simp [ha2]),
          List.find?_cons_of_neg _ (by simp [ha2])]
        have := ih
        unfold bagAt at this
        rw [this]

theorem bagAt_bagSet (d : List (Stop × McBag)) (s : Stop) (b : McBag)
    (s' : Stop) :
    bagAt (bagSet d s b) s' = if s' = s then b else bagAt d s' := by
  unfold bagSet
  by_cases hfound : (d.find? (fun p => decide (p.1 = s))).isSome
  · rw [if_pos hfound, bagAt_mapSet]
    by_cases h : s' = s
    · rw [if_pos h]
      have : (d.find? (fun p => decide (p.1 = s'))).isSome := by
        rw [show (fun p : Stop × McBag => decide (p.1 = s')) =
          (fun p : Stop × McBag => decide (p.1 = s)) from by
            funext p
            rw [h]]
        exact hfound
      rw [if_pos ⟨this, h⟩]
    · rw [if_neg h, if_neg (fun hc => h hc.2)]
  · rw [if_neg hfound]
    unfold bagAt
    rw [List.find?_append]
    by_cases h : s' = s
    · rw [if_pos h]
      have hq : d.find? (fun p => decide (p.1 = s')) = none := by
        rw [Option.not_isSome_iff_eq_none] at hfound
        rw [show (fun p : Stop × McBag => decide (p.1 = s')) =
          (fun p : Stop × McBag => decide (p.1 = s)) from by
            funext p
            rw [h]]
        exact hfound
      rw [hq]
      simp only [Option.none_or]
      rw [List.find?_cons_of_pos _ (by simp [h.symm])]
      rfl
    · rw [if_neg h]
      have hsingle : List.find?
          (fun p : Stop × McBag => decide (p.1 = s')) [(s, b)] = none := by
        rw [List.find?_cons_of_neg _ (by
          simp only [decide_eq_true_eq]
          intro hc
          exact h hc.symm)]
        rfl
      rw [hsingle, Option.or_none]

/-- One round dictionary covers another when, at every stop, every
label of the second is matched by a label of the first with total cost
not larger. -/
def dictCovers (d dprev : List (Stop × McBag)) : Prop :=
  ∀ s : Stop, covers McLabel.total_cost (bagAt d s).labels (bagAt dprev s).labels

theorem dictCovers_refl (d : List (Stop × McBag)) : dictCovers d d :=
  fun s => covers_refl _ _

theorem dictCovers_trans {a b c : List (Stop × McBag)}
    (h1 : dictCovers a b) (h2 : dictCovers b c) : dictCovers a c :=
  fun s => covers_trans _ (h1 s) (h2 s)

/-- Writing the merge of a stop's bag with anything never loses ground
at any stop. -/
theorem dictCovers_mergeAt (d : List (Stop × McBag)) (s : Stop) (x : McBag) :
    dictCovers (bagSet d s (Bag.merge McLabel.total_cost (bagAt d s) x)) d := by
  intro s'
  rw [bagAt_bagSet]
  by_cases h : s' = s
  · rw [if_pos h, h]
    exact merge_covers _ _ _
  · rw [if_neg h]
    exact covers_refl _ _

theorem foldl_dictCovers {σ α : Type} (proj : σ → List (Stop × McBag))
    (step : σ → α → σ)
    (hstep : ∀ acc x, dictCovers (proj (step acc x)) (proj acc)) :
    ∀ (l : List α) (acc : σ), dictCovers (proj (l.foldl step acc)) (proj acc) := by
  intro l
  induction l with
  | nil => exact fun acc => dictCovers_refl _
  | cons x t ih =>
    intro acc
    exact dictCovers_trans (ih (step acc x)) (hstep acc x)

theorem traverseStop_covers (kprev : List (Stop × McBag)) (route : Route)
    (remaining : List Stop) (acc : TravAcc) (p : ℕ × Stop) :
    dictCovers (traverseStop kprev route remaining acc p).bags acc.bags := by
  show dictCovers (bagSet acc.bags p.2 (Bag.merge McLabel.total_cost
    (bagAt acc.bags p.2) _)) acc.bags
  exact dictCovers_mergeAt _ _ _

theorem transferStep_covers (u : ℕ → ℕ) (transfers : List Transfer)
    (current : Stop) (acc : XferAcc) (other : Stop) :
    dictCovers (transferStep u transfers current acc other).bags acc.bags := by
  show dictCovers (bagSet acc.bags other (Bag.merge McLabel.total_cost
    (bagAt acc.bags other) _)) acc.bags
  exact dictCovers_mergeAt _ _ _

theorem traverse_route_covers (kprev : List (Stop × McBag))
    (rms : List (Route × Stop)) (bags0 : List (Stop × McBag)) :
    dictCovers (traverse_route kprev rms bags0).1 bags0 := by
  unfold traverse_route
  exact foldl_dictCovers (fun pr : List (Stop × McBag) × List Stop => pr.1)
    _ (fun acc rp =>
      foldl_dictCovers TravAcc.bags _
        (traverseStop_covers kprev rp.1 ((rp.1.stops.drop (rp.1.stop_index rp.2))))
        _ _) rms (bags0, [])

theorem add_transfer_time_covers (u : ℕ → ℕ) (transfers : List Transfer)
    (marked : List Stop) (bags : List (Stop × McBag)) (ctr : ℕ) :
    dictCovers (add_transfer_time u transfers marked bags ctr).bags bags := by
  unfold add_transfer_time
  exact foldl_dictCovers XferAcc.bags _
    (fun acc current =>
      foldl_dictCovers XferAcc.bags _ (transferStep_covers u transfers current)
      _ _) marked { bags := bags, marked := [], ctr := ctr }

theorem mcLoop_actual_le (u : ℕ → ℕ) (tt : McTimetable) :
    ∀ (n : ℕ) (prev : List (Stop × McBag)) (marked : List Stop)
      (ctr actual kcur : ℕ),
      (mcLoop u tt n prev marked ctr actual kcur).2.1 ≤
        max actual (kcur + n - 1) := by
  intro n
  induction n with
  | zero =>
    intro prev marked ctr actual kcur
    simp [mcLoop]
  | succ n ih =>
    intro prev marked ctr actual kcur
    simp only [mcLoop]
    by_cases hm : marked.isEmpty
    · rw [if_pos hm]
      exact le_max_left _ _
    · rw [if_neg hm]
      refine le_trans (ih _ _ _ kcur (kcur + 1)) ?_
      rcases Nat.le_total kcur (kcur + 1 + n - 1) with h | h
      · rw [Nat.max_eq_right h]
        exact le_max_of_le_right (by omega)
      · rw [Nat.max_eq_left h]
        exact le_max_of_le_right (by omega)

theorem mcLoop_covers (u : ℕ → ℕ) (tt : McTimetable) :
    ∀ (n : ℕ) (prev : List (Stop × McBag)) (marked : List Stop)
      (ctr actual kcur : ℕ), actual < kcur →
      ∀ i : ℕ, i < n →
        kcur + i ≤ (mcLoop u tt n prev marked ctr actual kcur).2.1 →
        dictCovers ((mcLoop u tt n prev marked ctr actual kcur).1.getD i [])
          (if i = 0 then prev
           else (mcLoop u tt n prev marked ctr actual kcur).1.getD (i - 1) []) := by
  intro n
  induction n with
  | zero =>
    intro prev marked ctr actual kcur ha i hi
    omega
  | succ n ih =>
    intro prev marked ctr actual kcur ha i hi hle
    simp only [mcLoop] at hle ⊢
    by_cases hm : marked.isEmpty
    · rw [if_pos hm] at hle ⊢
      simp only at hle
      exact absurd hle (by omega)
    · rw [if_neg hm] at hle ⊢
      simp only at hle ⊢
      set trav := traverse_route prev (accumulate_routes tt.routes marked) prev
        with htrav
      set xfer := add_transfer_time u tt.transfers trav.2 trav.1 ctr with hxfer
      set rest := mcLoop u tt n xfer.bags (listUnion trav.2 xfer.marked)
        xfer.ctr kcur (kcur + 1) with hrest
      rcases i with _ | j
      · rw [if_pos rfl]
        rw [List.getD_cons_zero]
        exact dictCovers_trans (add_transfer_time_covers u tt.transfers
          trav.2 trav.1 ctr) (traverse_route_covers prev
            (accumulate_routes tt.routes marked) prev)
      · rw [if_neg (Nat.succ_ne_zero j), List.getD_cons_succ]
        have hih := ih xfer.bags (listUnion trav.2 xfer.marked) xfer.ctr
          kcur (kcur + 1) (by omega) j (by omega) (by
            rw [← hrest]
            omega)
        rw [← hrest] at hih
        rcases j with _ | j2
        · rw [Nat.add_sub_cancel, List.getD_cons_zero]
          rw [if_pos rfl] at hih
          exact hih
        · rw [Nat.add_sub_cancel, List.getD_cons_succ]
          rw [if_neg (Nat.succ_ne_zero j2), Nat.add_sub_cancel] at hih
          exact hih

/-- C4 (amended): in the old-generation McRaptor run, for every round k
with 1 ≤ k ≤ actual_rounds and every stop p, the round-k bag at p covers
the round-(k-1) bag at p in the domination sense of the scalar merge:
every label of round k-1 is matched at round k by a label of total cost
not larger. (The unamended claim fails for k beyond actual_rounds, where
pre-initialized empty rounds remain, and arrival times alone may
increase when a cheaper-fare label wins the weighted merge.) -/
theorem claim_C4_amended (u : ℕ → ℕ) (tt : McTimetable)
    (from_stops : List Stop) (dep_secs : ℤ) (rounds k : ℕ) (p : Stop)
    (hk1 : 1 ≤ k) (hk2 : k ≤ (mcRun u tt from_stops dep_secs rounds).2) :
    covers McLabel.total_cost
      (bagAt ((mcRun u tt from_stops dep_secs rounds).1.getD k []) p).labels
      (bagAt ((mcRun u tt from_stops dep_secs rounds).1.getD (k - 1) []) p).labels := by
  simp only [mcRun] at hk2 ⊢
  set bag0 := from_stops.foldl (fun d fs =>
    bagSet d fs (Bag.add (bagAt d fs)
      { earliest_arrival_time := dep_secs, fare := 0, trip := none,
        boarding_stop := fs, n_trips := 0 })) (emptyBags tt.stops) with hbag0
  set res := mcLoop u tt rounds bag0 from_stops 0 0 1 with hres
  have hb := mcLoop_actual_le u tt rounds bag0 from_stops 0 0 1
  rw [← hres] at hb
  have hkr : k ≤ rounds := by
    rcases Nat.le_total 0 (1 + rounds - 1) with h | h
    · rw [Nat.max_eq_right h] at hb
      omega
    · rw [Nat.max_eq_left h] at hb
      omega
  have hc := mcLoop_covers u tt rounds bag0 from_stops 0 0 1 (by omega)
    (k - 1) (by omega) (by
      rw [← hres]
      omega)
  rw [← hres] at hc
  obtain ⟨j, rfl⟩ : ∃ j, k = j + 1 := ⟨k - 1, by omega⟩
  rw [Nat.add_sub_cancel] at hc ⊢
  rw [List.getD_cons_succ]
  rcases j with _ | j2
  · rw [List.getD_cons_zero]
    rw [if_pos rfl] at hc
    exact hc p
  · rw [List.getD_cons_succ]
    rw [if_neg (Nat.succ_ne_zero j2), Nat.add_sub_cancel] at hc
    exact hc p

/-- Witness for C4 (amended): on the two-route fixture timetable, round
1 covers round 0 at stop C of the concrete run. -/
theorem claim_C4_witness :
    covers McLabel.total_cost
      (bagAt ((mcRun (fun n => n) mcTT4 [mcStopA] 0 2).1.getD 1 []) mcStopC).labels
      (bagAt ((mcRun (fun n => n) mcTT4 [mcStopA] 0 2).1.getD 0 []) mcStopC).labels :=
  claim_C4_amended (fun n => n) mcTT4 [mcStopA] 0 2 1 mcStopC (by decide)
    (by decide)

/-- Renaming of the transfer-trip id draws by a function on draw
values; scheduled trip ids are untouched. Specialised to the constant
zero function this erases the uuid draws. -/
def mapTripId (u : ℕ → ℕ) : TripId → TripId
  | .sched n => .sched n
  | .transfer n => .transfer (u n)

/-- The renaming applied to a trip: only the id changes. -/
def mapTrip (u : ℕ → ℕ) (t : Trip) : Trip :=
  { t with id := mapTripId u t.id }

/-- The renaming applied to a label: only the stored trip changes. -/
def mapLabel (u : ℕ → ℕ) (l : McLabel) : McLabel :=
  { l with trip := l.trip.map (mapTrip u) }

/-- The renaming applied to a bag. -/
def mapBag (u : ℕ → ℕ) (b : McBag) : McBag :=
  { labels := b.labels.map (mapLabel u), updated := b.updated }

/-- The renaming applied to a round dictionary. -/
def mapDict (u : ℕ → ℕ) (d : List (Stop × McBag)) : List (Stop × McBag) :=
  d.map (fun p => (p.1, mapBag u p.2))

/-- Boolean test that a trip id is a scheduled (timetable) id; the
decidable form of the sched-ids hypothesis of the amended C3. -/
def TripId.isSched : TripId → Bool
  | .sched _ => true
  | .transfer _ => false

theorem mapTripId_isSched (u : ℕ → ℕ) (i : TripId)
    (h : i.isSched = true) : mapTripId u i = i := by
  cases i with
  | sched n => rfl
  | transfer n => exact absurd h (by simp [TripId.isSched])

theorem mapTripId_inj {u : ℕ → ℕ} (hu : Function.Injective u) :
    Function.Injective (mapTripId u) := by
  intro a b h
  cases a <;> cases b <;> simp [mapTripId] at h ⊢
  · exact h
  · exact hu h

theorem mapTrip_inj {u : ℕ → ℕ} (hu : Function.Injective u) :
    Function.Injective (mapTrip u) := by
  intro a b h
  cases a
  cases b
  simp only [mapTrip, Trip.mk.injEq] at h ⊢
  exact ⟨mapTripId_inj hu h.1, h.2.1, h.2.2⟩

theorem mapLabel_inj {u : ℕ → ℕ} (hu : Function.Injective u) :
    Function.Injective (mapLabel u) := by
  intro a b h
  cases a
  cases b
  simp only [mapLabel, McLabel.mk.injEq] at h ⊢
  exact ⟨h.1, h.2.1, Option.map_injective (mapTrip_inj hu) h.2.2.1,
    h.2.2.2.1, h.2.2.2.2⟩

theorem total_cost_mapLabel (u : ℕ → ℕ) (l : McLabel) :
    (mapLabel u l).total_cost = l.total_cost := rfl

theorem mapLabel_update (u : ℕ → ℕ) (l : McLabel) (arr f : ℤ)
    (bs : Option Stop) :
    mapLabel u (l.update arr f bs) = (mapLabel u l).update arr f bs := rfl

theorem get_stop_time_d_mapTrip (u : ℕ → ℕ) (t : Trip) (s : Stop) :
    (mapTrip u t).get_stop_time_d s = t.get_stop_time_d s := rfl

theorem get_fare_mapTrip (u : ℕ → ℕ) (t : Trip) (s : Stop) :
    (mapTrip u t).get_fare s = t.get_fare s := rfl

theorem mapLabel_update_trip {u : ℕ → ℕ} (hu : Function.Injective u)
    (l : McLabel) (t : Trip) (bs : Stop) :
    mapLabel u (l.update_trip t bs) =
      (mapLabel u l).update_trip (mapTrip u t) bs := by
  unfold McLabel.update_trip
  by_cases h : l.trip = some t
  · rw [if_pos h, if_pos]
    show l.trip.map (mapTrip u) = some (mapTrip u t)
    rw [h]
    rfl
  · rw [if_neg h, if_neg]
    · rfl
    · intro hc
      have hc2 : l.trip.map (mapTrip u) = some (mapTrip u t) := hc
      rcases ht : l.trip with _ | t0
      · rw [ht] at hc2
        exact absurd hc2 (by simp)
      · rw [ht] at hc2
        simp only [Option.map_some'] at hc2
        have := mapTrip_inj hu (Option.some.inj hc2)
        rw [ht, this] at h
        exact h rfl

theorem firstMinBy_map [LinearOrder β] (cost : α → β) (f : α → α)
    (hf : ∀ l, cost (f l) = cost l) (labels : List α) :
    firstMinBy cost (labels.map f) = (firstMinBy cost labels).map f := by
  unfold firstMinBy
  rw [List.find?_map]
  have hpred : ((fun l => (labels.map f).all fun m => decide (cost l ≤ cost m)) ∘ f) =
      (fun l => labels.all fun m => decide (cost l ≤ cost m)) := by
    funext x
    show (labels.map f).all (fun m => decide (cost (f x) ≤ cost m)) =
      labels.all (fun m => decide (cost x ≤ cost m))
    rw [List.all_map]
    congr 1
    funext m
    simp [Function.comp, hf]
  rw [hpred]

theorem pareto_set_map [LinearOrder β] [Inhabited β] (cost : α → β)
    (f : α → α) (hf : ∀ l, cost (f l) = cost l) (labels : List α) :
    pareto_set cost false (labels.map f) =
      (pareto_set cost false labels).map f := by
  rw [pareto_set_eq_firstMin, pareto_set_eq_firstMin, firstMinBy_map cost f hf]
  cases firstMinBy cost labels <;> rfl

theorem merge_map [DecidableEq α] [LinearOrder β] [Inhabited β]
    (cost : α → β) (f : α → α) (hf : ∀ l, cost (f l) = cost l)
    (hinj : Function.Injective f) (b other : Bag α) :
    Bag.merge cost { labels := b.labels.map f, updated := b.updated }
        { labels := other.labels.map f, updated := other.updated } =
      { labels := (Bag.merge cost b other).labels.map f,
        updated := (Bag.merge cost b other).updated } := by
  have hemap : ∀ (l : List α), (l.map f).isEmpty = l.isEmpty := by
    intro l
    cases l <;> rfl
  simp only [Bag.merge, ← List.map_append, hemap]
  by_cases he : (b.labels ++ other.labels).isEmpty
  · rw [if_pos he, if_pos he]
    rfl
  · rw [if_neg he, if_neg he]
    rw [pareto_set_map cost f hf]
    have hiff : ((pareto_set cost false (b.labels ++ other.labels)).map f =
        b.labels.map f) ↔
        (pareto_set cost false (b.labels ++ other.labels) = b.labels) :=
      ⟨fun h => List.map_injective_iff.mpr hinj h, fun h => by rw [h]⟩
    congr 1
    rw [decide_eq_decide]
    exact not_congr hiff

theorem merge_mapBag {u : ℕ → ℕ} (hu : Function.Injective u)
    (b other : McBag) :
    Bag.merge McLabel.total_cost (mapBag u b) (mapBag u other) =
      mapBag u (Bag.merge McLabel.total_cost b other) :=
  merge_map McLabel.total_cost (mapLabel u) (total_cost_mapLabel u)
    (mapLabel_inj hu) b other

theorem bagAt_mapDict (u : ℕ → ℕ) (d : List (Stop × McBag)) (s : Stop) :
    bagAt (mapDict u d) s = mapBag u (bagAt d s) := by
  unfold bagAt mapDict
  rw [List.find?_map]
  have hc : ((fun p : Stop × McBag => decide (p.1 = s)) ∘
      (fun p : Stop × McBag => (p.1, mapBag u p.2))) =
      (fun p : Stop × McBag => decide (p.1 = s)) := rfl
  rw [hc]
  cases d.find? (fun p : Stop × McBag => decide (p.1 = s)) <;> rfl

theorem bagSet_mapDict (u : ℕ → ℕ) (d : List (Stop × McBag)) (s : Stop)
    (b : McBag) :
    bagSet (mapDict u d) s (mapBag u b) = mapDict u (bagSet d s b) := by
  unfold bagSet mapDict
  rw [List.find?_map]
  have hc : ((fun p : Stop × McBag => decide (p.1 = s)) ∘
      (fun p : Stop × McBag => (p.1, mapBag u p.2))) =
      (fun p : Stop × McBag => decide (p.1 = s)) := rfl
  rw [hc]
  by_cases hf : (d.find? fun p : Stop × McBag => decide (p.1 = s)).isSome
  · rw [if_pos (by simpa using hf), if_pos hf]
    rw [List.map_map, List.map_map]
    congr 1
    funext p
    by_cases hp : p.1 = s
    · simp [Function.comp, hp]
    · simp [Function.comp, hp]
  · rw [if_neg (by simpa using hf), if_neg hf]
    rw [List.map_append]
    rfl

theorem foldl_map_state {σ τ α : Type} (g : σ → τ) (f1 : τ → α → τ)
    (f2 : σ → α → σ) (h : ∀ a x, f1 (g a) x = g (f2 a x)) :
    ∀ (l : List α) (a : σ), l.foldl f1 (g a) = g (l.foldl f2 a) := by
  intro l
  induction l with
  | nil => intro a; rfl
  | cons x t ih =>
    intro a
    rw [List.foldl_cons, List.foldl_cons, h a x, ih (f2 a x)]

theorem accumulate_routes_fst_mem (routes : List Route)
    (marked : List Stop) :
    ∀ p ∈ accumulate_routes routes marked, p.1 ∈ routes := by
  unfold accumulate_routes
  have hstep : ∀ (ms : Stop) (RS : List Route), (∀ rr ∈ RS, rr ∈ routes) →
      ∀ q : List (Route × Stop), (∀ p ∈ q, p.1 ∈ routes) →
        ∀ p ∈ RS.foldl (accRouteStep ms) q, p.1 ∈ routes := by
    intro ms RS
    induction RS with
    | nil =>
      intro _ q hq p hp
      exact hq p hp
    | cons rr tl ih =>
      intro h q hq p hp
      rw [List.foldl_cons] at hp
      refine ih (fun x hx => h x (List.mem_cons_of_mem rr hx)) _ ?_ p hp
      intro p2 hp2
      rcases accRouteStep_mem ms q rr p2 hp2 with h1 | h2 | ⟨p0, hp0, he1, _, _⟩
      · exact hq p2 h1
      · rw [h2]
        exact h rr (List.mem_cons_self rr tl)
      · rw [he1]
        exact hq p0 hp0
  have houter : ∀ (M : List Stop) (q : List (Route × Stop)),
      (∀ p ∈ q, p.1 ∈ routes) →
      ∀ p ∈ M.foldl (fun q ms =>
        (get_routes_of_stop routes ms).foldl (accRouteStep ms) q) q,
        p.1 ∈ routes := by
    intro M
    induction M with
    | nil =>
      intro q hq p hp
      exact hq p hp
    | cons ms tl ih =>
      intro q hq p hp
      rw [List.foldl_cons] at hp
      refine ih _ ?_ p hp
      exact hstep ms (get_routes_of_stop routes ms)
        (fun rr hrr => List.mem_of_mem_filter hrr) q hq
  intro p hp
  refine houter marked [] ?_ p hp
  intro p2 hp2
  exact absurd hp2 (List.not_mem_nil p2)

theorem earliest_trip_mem (r : Route) (d : ℤ) (s : Stop) (t : Trip)
    (h : r.earliest_trip d s = some t) : t ∈ r.trips := by
  rw [earliest_trip_eq_firstMin] at h
  rcases hm : firstMinBy (fun p => p.2.dts_dep)
      ((r.trips.map (fun t => (t, r.tst_at s t))).filter
        (fun p => decide (d ≤ p.2.dts_dep))) with _ | p
  · rw [hm] at h
    exact absurd h (by simp)
  · rw [hm] at h
    simp only [Option.map_some'] at h
    have hp1 : p.1 = t := Option.some.inj h
    unfold firstMinBy at hm
    have hpmem := List.mem_of_find?_eq_some hm
    have hpmem2 := List.mem_of_mem_filter hpmem
    obtain ⟨t0, ht0, heq⟩ := List.mem_map.mp hpmem2
    rw [← hp1, ← heq]
    exact ht0

theorem mapTrip_isSched (u : ℕ → ℕ) (t : Trip)
    (h : t.id.isSched = true) : mapTrip u t = t := by
  unfold mapTrip
  rw [mapTripId_isSched u t.id h]

theorem eat_mapLabel (u : ℕ → ℕ) (l : McLabel) :
    (mapLabel u l).earliest_arrival_time = l.earliest_arrival_time := rfl

theorem labels_mapBag (u : ℕ → ℕ) (b : McBag) :
    (mapBag u b).labels = b.labels.map (mapLabel u) := rfl

theorem updated_mapBag (u : ℕ → ℕ) (b : McBag) :
    (mapBag u b).updated = b.updated := rfl

theorem mapBag_mk (u : ℕ → ℕ) (L : List McLabel) (fl : Bool) :
    ({ labels := L.map (mapLabel u), updated := fl } : McBag) =
      mapBag u { labels := L, updated := fl } := rfl

/-- The renaming applied to a transfer-relaxation accumulator. -/
def mapXfer (u : ℕ → ℕ) (a : XferAcc) : XferAcc :=
  { bags := mapDict u a.bags, marked := a.marked, ctr := a.ctr }

/-- The renaming applied to a traversal accumulator. -/
def mapTrav (u : ℕ → ℕ) (a : TravAcc) : TravAcc :=
  { bags := mapDict u a.bags, marked := a.marked,
    route_bag := a.route_bag.map (mapLabel u) }

theorem mapTrip_transfer (u : ℕ → ℕ) (n : ℕ) (tt : TransportType)
    (sts : List TripStopTime) :
    mapTrip u { id := .transfer n, transport_type := tt, stop_times := sts } =
      { id := .transfer (u n), transport_type := tt, stop_times := sts } := rfl

theorem transferBody_map {u : ℕ → ℕ} (hu : Function.Injective u)
    (transfers : List Transfer) (current other : Stop)
    (L : List McLabel) (c : ℕ) (l : McLabel) :
    transferBody u transfers current other (L.map (mapLabel u), c)
        (mapLabel u l) =
      ((transferBody (fun n => n) transfers current other (L, c) l).1.map (mapLabel u),
        (transferBody (fun n => n) transfers current other (L, c) l).2) := by
  simp only [transferBody, List.map_append, mapLabel_update_trip hu,
    mapLabel_update, mapTrip_transfer, eat_mapLabel, List.map_cons,
    List.map_nil]

theorem transferBuild_map {u : ℕ → ℕ} (hu : Function.Injective u)
    (transfers : List Transfer) (current other : Stop) :
    ∀ (src L : List McLabel) (c : ℕ),
      (src.map (mapLabel u)).foldl (transferBody u transfers current other)
          (L.map (mapLabel u), c) =
        ((src.foldl (transferBody (fun n => n) transfers current other)
            (L, c)).1.map (mapLabel u),
          (src.foldl (transferBody (fun n => n) transfers current other)
            (L, c)).2) := by
  intro src
  induction src with
  | nil =>
    intro L c
    rfl
  | cons x tl ih =>
    intro L c
    rw [List.map_cons, List.foldl_cons, List.foldl_cons,
      transferBody_map hu]
    exact ih (transferBody (fun n => n) transfers current other (L, c) x).1
      (transferBody (fun n => n) transfers current other (L, c) x).2

theorem transferStep_map {u : ℕ → ℕ} (hu : Function.Injective u)
    (transfers : List Transfer) (current : Stop) (acc : XferAcc)
    (other : Stop) :
    transferStep u transfers current (mapXfer u acc) other =
      mapXfer u (transferStep (fun n => n) transfers current acc other) := by
  have hb : ((bagAt acc.bags current).labels.map (mapLabel u)).foldl
      (transferBody u transfers current other) ([], acc.ctr) =
      (((bagAt acc.bags current).labels.foldl
          (transferBody (fun n => n) transfers current other)
          ([], acc.ctr)).1.map (mapLabel u),
        ((bagAt acc.bags current).labels.foldl
          (transferBody (fun n => n) transfers current other)
          ([], acc.ctr)).2) :=
    transferBuild_map hu transfers current other
      (bagAt acc.bags current).labels [] acc.ctr
  show transferStep u transfers current
      { bags := mapDict u acc.bags, marked := acc.marked, ctr := acc.ctr }
      other = _
  simp only [transferStep, bagAt_mapDict, labels_mapBag, mapXfer]
  rw [hb]
  simp only [mapBag_mk, merge_mapBag hu, updated_mapBag, bagSet_mapDict]

theorem add_transfer_time_map {u : ℕ → ℕ} (hu : Function.Injective u)
    (transfers : List Transfer) (marked : List Stop)
    (bags : List (Stop × McBag)) (ctr : ℕ) :
    add_transfer_time u transfers marked (mapDict u bags) ctr =
      mapXfer u (add_transfer_time (fun n => n) transfers marked bags ctr) := by
  unfold add_transfer_time
  exact foldl_map_state (mapXfer u) _ _
    (fun a x =>
      foldl_map_state (mapXfer u) _ _
        (fun a2 x2 => transferStep_map hu transfers x a2 x2) _ a)
    marked { bags := bags, marked := [], ctr := ctr }

theorem travUpdateLabel_map (u : ℕ → ℕ) (current : Stop)
    (remaining : List Stop) (idx : ℕ) (l : McLabel) :
    travUpdateLabel current remaining idx (mapLabel u l) =
      mapLabel u (travUpdateLabel current remaining idx l) := by
  unfold travUpdateLabel
  rw [mapLabel_update]
  have ht : (mapLabel u l).trip = l.trip.map (mapTrip u) := rfl
  rw [ht]
  cases l.trip <;> rfl

theorem travAssign_map {u : ℕ → ℕ} (hu : Function.Injective u)
    (marked_route : Route)
    (hsched : ∀ t ∈ marked_route.trips, t.id.isSched = true)
    (current : Stop) (l : McLabel) :
    travAssign marked_route current (mapLabel u l) =
      (travAssign marked_route current l).map (mapLabel u) := by
  unfold travAssign
  rw [eat_mapLabel]
  rcases het : marked_route.earliest_trip l.earliest_arrival_time current
    with _ | et
  · rfl
  · show some ((mapLabel u l).update_trip et current) =
      some (mapLabel u (l.update_trip et current))
    rw [mapLabel_update_trip hu,
      mapTrip_isSched u et
        (hsched et (earliest_trip_mem marked_route
          l.earliest_arrival_time current et het))]

theorem traverseStop_map {u : ℕ → ℕ} (hu : Function.Injective u)
    (kprev : List (Stop × McBag)) (marked_route : Route)
    (hsched : ∀ t ∈ marked_route.trips, t.id.isSched = true)
    (remaining : List Stop) (acc : TravAcc) (p : ℕ × Stop) :
    traverseStop (mapDict u kprev) marked_route remaining (mapTrav u acc) p =
      mapTrav u (traverseStop kprev marked_route remaining acc p) := by
  show traverseStop (mapDict u kprev) marked_route remaining
      { bags := mapDict u acc.bags, marked := acc.marked,
        route_bag := acc.route_bag.map (mapLabel u) } p = _
  simp only [traverseStop, mapTrav, bagAt_mapDict, labels_mapBag]
  rw [List.map_map,
    show (travUpdateLabel p.2 remaining p.1 ∘ mapLabel u) =
      (mapLabel u ∘ travUpdateLabel p.2 remaining p.1) from
        funext (fun l => travUpdateLabel_map u p.2 remaining p.1 l),
    ← List.map_map]
  simp only [mapBag_mk, merge_mapBag hu, updated_mapBag, bagSet_mapDict,
    labels_mapBag]
  rw [List.filterMap_map,
    show (travAssign marked_route p.2 ∘ mapLabel u) =
      (fun l => (travAssign marked_route p.2 l).map (mapLabel u)) from
        funext (fun l => travAssign_map hu marked_route hsched p.2 l),
    ← List.map_filterMap]

theorem foldl_map_state_mem {σ τ α : Type} (g : σ → τ) (f1 : τ → α → τ)
    (f2 : σ → α → σ) :
    ∀ (l : List α), (∀ a, ∀ x ∈ l, f1 (g a) x = g (f2 a x)) →
      ∀ (a : σ), l.foldl f1 (g a) = g (l.foldl f2 a) := by
  intro l
  induction l with
  | nil =>
    intro _ a
    rfl
  | cons x t ih =>
    intro h a
    rw [List.foldl_cons, List.foldl_cons, h a x (List.mem_cons_self x t)]
    exact ih (fun a2 y hy => h a2 y (List.mem_cons_of_mem x hy)) (f2 a x)

theorem traverse_route_map {u : ℕ → ℕ} (hu : Function.Injective u)
    (kprev : List (Stop × McBag)) (rms : List (Route × Stop))
    (hsched : ∀ rp ∈ rms, ∀ t ∈ rp.1.trips, t.id.isSched = true)
    (bags0 : List (Stop × McBag)) :
    traverse_route (mapDict u kprev) rms (mapDict u bags0) =
      (mapDict u (traverse_route kprev rms bags0).1,
        (traverse_route kprev rms bags0).2) := by
  unfold traverse_route
  refine foldl_map_state_mem
    (fun pr : List (Stop × McBag) × List Stop => (mapDict u pr.1, pr.2))
    _ _ rms ?_ (bags0, [])
  intro a rp hrp
  have hin := foldl_map_state (mapTrav u)
    (traverseStop (mapDict u kprev) rp.1
      (rp.1.stops.drop (rp.1.stop_index rp.2)))
    (traverseStop kprev rp.1 (rp.1.stops.drop (rp.1.stop_index rp.2)))
    (fun a2 x2 => traverseStop_map hu kprev rp.1 (hsched rp hrp)
      (rp.1.stops.drop (rp.1.stop_index rp.2)) a2 x2)
    (rp.1.stops.drop (rp.1.stop_index rp.2)).enum
    { bags := a.1, marked := a.2, route_bag := [] }
  show (((rp.1.stops.drop (rp.1.stop_index rp.2)).enum.foldl
      (traverseStop (mapDict u kprev) rp.1
        (rp.1.stops.drop (rp.1.stop_index rp.2)))
      { bags := mapDict u a.1, marked := a.2, route_bag := [] }).bags,
    ((rp.1.stops.drop (rp.1.stop_index rp.2)).enum.foldl
      (traverseStop (mapDict u kprev) rp.1
        (rp.1.stops.drop (rp.1.stop_index rp.2)))
      { bags := mapDict u a.1, marked := a.2, route_bag := [] }).marked) =
    (mapDict u ((rp.1.stops.drop (rp.1.stop_index rp.2)).enum.foldl
      (traverseStop kprev rp.1 (rp.1.stops.drop (rp.1.stop_index rp.2)))
      { bags := a.1, marked := a.2, route_bag := [] }).bags,
      ((rp.1.stops.drop (rp.1.stop_index rp.2)).enum.foldl
        (traverseStop kprev rp.1 (rp.1.stops.drop (rp.1.stop_index rp.2)))
        { bags := a.1, marked := a.2, route_bag := [] }).marked)
  have hin2 : ((rp.1.stops.drop (rp.1.stop_index rp.2)).enum.foldl
      (traverseStop (mapDict u kprev) rp.1
        (rp.1.stops.drop (rp.1.stop_index rp.2)))
      { bags := mapDict u a.1, marked := a.2, route_bag := [] }) =
      mapTrav u ((rp.1.stops.drop (rp.1.stop_index rp.2)).enum.foldl
        (traverseStop kprev rp.1 (rp.1.stops.drop (rp.1.stop_index rp.2)))
        { bags := a.1, marked := a.2, route_bag := [] }) := hin
  rw [hin2]
  rfl

theorem mapDict_emptyBags (u : ℕ → ℕ) (stops : List Stop) :
    mapDict u (emptyBags stops) = emptyBags stops := by
  unfold mapDict emptyBags
  rw [List.map_map]
  rfl

theorem bags_mapXfer (u : ℕ → ℕ) (a : XferAcc) :
    (mapXfer u a).bags = mapDict u a.bags := rfl

theorem mcLoop_map {u : ℕ → ℕ} (hu : Function.Injective u)
    (tt : McTimetable)
    (hsched : ∀ r ∈ tt.routes, ∀ t ∈ r.trips, t.id.isSched = true) :
    ∀ (n : ℕ) (prev : List (Stop × McBag)) (marked : List Stop)
      (ctr actual kcur : ℕ),
      mcLoop u tt n (mapDict u prev) marked ctr actual kcur =
        ((mcLoop (fun n => n) tt n prev marked ctr actual kcur).1.map (mapDict u),
          (mcLoop (fun n => n) tt n prev marked ctr actual kcur).2) := by
  intro n
  induction n with
  | zero =>
    intro prev marked ctr actual kcur
    rfl
  | succ n ih =>
    intro prev marked ctr actual kcur
    simp only [mcLoop]
    by_cases hm : marked.isEmpty
    · rw [if_pos hm, if_pos hm]
      simp only [List.map_cons, List.map_replicate, mapDict_emptyBags]
    · rw [if_neg hm, if_neg hm]
      have htr := traverse_route_map hu prev
        (accumulate_routes tt.routes marked)
        (fun rp hrp t ht =>
          hsched rp.1 (accumulate_routes_fst_mem tt.routes marked rp hrp) t ht)
        prev
      rw [htr]
      dsimp only
      rw [add_transfer_time_map hu]
      dsimp only [mapXfer]
      rw [ih]
      simp only [List.map_cons]

theorem mapBag_add (u : ℕ → ℕ) (b : McBag) (l : McLabel) :
    mapBag u (Bag.add b l) = Bag.add (mapBag u b) (mapLabel u l) := by
  unfold mapBag Bag.add
  rw [List.map_append]
  rfl

theorem mcRun_map {u : ℕ → ℕ} (hu : Function.Injective u)
    (tt : McTimetable)
    (hsched : ∀ r ∈ tt.routes, ∀ t ∈ r.trips, t.id.isSched = true)
    (from_stops : List Stop) (dep_secs : ℤ) (rounds : ℕ) :
    mcRun u tt from_stops dep_secs rounds =
      ((mcRun (fun n => n) tt from_stops dep_secs rounds).1.map (mapDict u),
        (mcRun (fun n => n) tt from_stops dep_secs rounds).2) := by
  have hstep : ∀ (d : List (Stop × McBag)) (fs : Stop),
      bagSet (mapDict u d) fs (Bag.add (bagAt (mapDict u d) fs)
        { earliest_arrival_time := dep_secs, fare := 0, trip := none,
          boarding_stop := fs, n_trips := 0 }) =
      mapDict u (bagSet d fs (Bag.add (bagAt d fs)
        { earliest_arrival_time := dep_secs, fare := 0, trip := none,
          boarding_stop := fs, n_trips := 0 })) := by
    intro d fs
    have hL : Bag.add (mapBag u (bagAt d fs)) { earliest_arrival_time := dep_secs, fare := 0, trip := none, boarding_stop := fs, n_trips := 0 } = Bag.add (mapBag u (bagAt d fs)) (mapLabel u { earliest_arrival_time := dep_secs, fare := 0, trip := none, boarding_stop := fs, n_trips := 0 }) := rfl
    rw [bagAt_mapDict, hL, ← mapBag_add, bagSet_mapDict]
  have hb0 : from_stops.foldl (fun d fs =>
      bagSet d fs (Bag.add (bagAt d fs)
        { earliest_arrival_time := dep_secs, fare := 0, trip := none,
          boarding_stop := fs, n_trips := 0 })) (emptyBags tt.stops) =
      mapDict u (from_stops.foldl (fun d fs =>
        bagSet d fs (Bag.add (bagAt d fs)
          { earliest_arrival_time := dep_secs, fare := 0, trip := none,
            boarding_stop := fs, n_trips := 0 })) (emptyBags tt.stops)) := by
    conv_lhs => rw [show emptyBags tt.stops = mapDict u (emptyBags tt.stops)
      from (mapDict_emptyBags u tt.stops).symm]
    exact foldl_map_state (mapDict u) _ _ (fun d fs => hstep d fs)
      from_stops (emptyBags tt.stops)
  simp only [mcRun]
  simp only [List.map_cons]
  conv_lhs => rw [hb0]
  rw [mcLoop_map hu tt hsched]

theorem mapTripId_comp (v u : ℕ → ℕ) (i : TripId) :
    mapTripId v (mapTripId u i) = mapTripId (fun n => v (u n)) i := by
  cases i <;> rfl

theorem mapTrip_comp (v u : ℕ → ℕ) (t : Trip) :
    mapTrip v (mapTrip u t) = mapTrip (fun n => v (u n)) t := by
  show ({ t with id := mapTripId v (mapTripId u t.id) } : Trip) =
    { t with id := mapTripId (fun n => v (u n)) t.id }
  rw [mapTripId_comp]

theorem mapLabel_comp (v u : ℕ → ℕ) (l : McLabel) :
    mapLabel v (mapLabel u l) = mapLabel (fun n => v (u n)) l := by
  show ({ l with trip := (l.trip.map (mapTrip u)).map (mapTrip v) } : McLabel) =
    { l with trip := l.trip.map (mapTrip (fun n => v (u n))) }
  rw [Option.map_map,
    show (mapTrip v ∘ mapTrip u) = mapTrip (fun n => v (u n)) from
      funext (fun t => mapTrip_comp v u t)]

theorem mapBag_comp (v u : ℕ → ℕ) (b : McBag) :
    mapBag v (mapBag u b) = mapBag (fun n => v (u n)) b := by
  cases b with
  | mk L fl =>
    show Bag.mk ((L.map (mapLabel u)).map (mapLabel v)) fl =
      Bag.mk (L.map (mapLabel (fun n => v (u n)))) fl
    rw [List.map_map,
      show (mapLabel v ∘ mapLabel u) = mapLabel (fun n => v (u n)) from
        funext (fun l => mapLabel_comp v u l)]

theorem mapDict_comp (v u : ℕ → ℕ) (d : List (Stop × McBag)) :
    mapDict v (mapDict u d) = mapDict (fun n => v (u n)) d := by
  unfold mapDict
  rw [List.map_map]
  congr 1
  funext p
  show (p.1, mapBag v (mapBag u p.2)) = (p.1, mapBag (fun n => v (u n)) p.2)
  rw [mapBag_comp]

/-- C3 (amended): the old-generation McRaptor run is deterministic up
to the uuid4 draws stored in the ids of the freshly built TransferTrips.
For any two injective uuid draw streams, the bag_round_stop mappings of
the two runs agree after erasing the transfer-trip ids (renaming every
transfer id to the constant 0), and the actual_rounds counts agree,
provided every trip of the timetable's routes carries a scheduled id.
(The unamended claim fails: the stored TransferTrips themselves carry
the fresh draws, so two runs differ on them.) -/
theorem claim_C3_amended (u1 u2 : ℕ → ℕ) (hu1 : Function.Injective u1)
    (hu2 : Function.Injective u2) (tt : McTimetable)
    (hsched : ∀ r ∈ tt.routes, ∀ t ∈ r.trips, t.id.isSched = true)
    (from_stops : List Stop) (dep_secs : ℤ) (rounds : ℕ) :
    (mcRun u1 tt from_stops dep_secs rounds).1.map (mapDict (fun _ => 0)) =
      (mcRun u2 tt from_stops dep_secs rounds).1.map (mapDict (fun _ => 0)) ∧
    (mcRun u1 tt from_stops dep_secs rounds).2 =
      (mcRun u2 tt from_stops dep_secs rounds).2 := by
  rw [mcRun_map hu1 tt hsched from_stops dep_secs rounds,
    mcRun_map hu2 tt hsched from_stops dep_secs rounds]
  constructor
  · dsimp only
    rw [List.map_map, List.map_map,
      show (mapDict (fun _ => 0) ∘ mapDict u1) = mapDict (fun _ => 0) from
        funext (fun d => mapDict_comp (fun _ => 0) u1 d),
      show (mapDict (fun _ => 0) ∘ mapDict u2) = mapDict (fun _ => 0) from
        funext (fun d => mapDict_comp (fun _ => 0) u2 d)]
  · rfl

/-- Witness for C3 (amended): two concrete runs of the transfer fixture
with different injective uuid streams agree after erasing the
transfer-trip draws, and report the same actual_rounds. -/
theorem claim_C3_witness :
    (mcRun (fun n => 100 + n) mcTTX [mcStopA] 0 1).1.map (mapDict (fun _ => 0)) =
      (mcRun (fun n => 200 + n) mcTTX [mcStopA] 0 1).1.map (mapDict (fun _ => 0)) ∧
    (mcRun (fun n => 100 + n) mcTTX [mcStopA] 0 1).2 =
      (mcRun (fun n => 200 + n) mcTTX [mcStopA] 0 1).2 :=
  claim_C3_amended (fun n => 100 + n) (fun n => 200 + n)
    (fun a b h => by
      have h2 : 100 + a = 100 + b := h
      omega)
    (fun a b h => by
      have h2 : 200 + a = 200 + b := h
      omega) mcTTX (by decide)
    [mcStopA] 0 1

/-- Leg of structures.py: a journey leg from one stop to another on a
trip, carrying the label's criteria. The trip is optional because
origin labels carry no trip (empty legs). -/
structure Leg where
  from_stop : Stop
  to_stop : Stop
  trip : Option Trip
  criteria : List Criterion
deriving DecidableEq, Repr

/-- Leg.dep of structures.py: the departure time of the trip's stop
time at the from_stop, none embedding the raised exception when the
trip is absent or does not serve the stop. -/
def Leg.dep (l : Leg) : Option ℤ :=
  match l.trip with
  | none => none
  | some t => ((t.stop_times.filter
      (fun tst => decide (l.from_stop = tst.stop))).map
        (fun tst => tst.dts_dep)).head?

/-- Leg.arr of structures.py: the arrival time of the trip's stop time
at the to_stop, none embedding the raised exception. -/
def Leg.arr (l : Leg) : Option ℤ :=
  match l.trip with
  | none => none
  | some t => ((t.stop_times.filter
      (fun tst => decide (l.to_stop = tst.stop))).map
        (fun tst => tst.dts_arr)).head?

/-- Leg.is_compatible_before of structures.py: numpy all of the
elementwise comparison `other.criteria >= self.criteria`, where
Criterion comparison compares costs; the labels produced by one engine
carry criteria lists of equal length, modelled by the zip. -/
def Leg.is_compatible_before (l other : Leg) : Bool :=
  (l.criteria.zip other.criteria).all
    (fun p => decide (p.1.cost ≤ p.2.cost))

/-- Journey of structures.py: an ordered list of legs. -/
structure Journey where
  legs : List Leg
deriving DecidableEq, Repr

/-- Journey.remove_empty_and_same_station_legs of structures.py: keep
only the legs with a trip whose endpoints belong to different
stations. -/
def Journey.remove_empty_and_same_station_legs (j : Journey) : Journey :=
  { legs := j.legs.filter (fun leg =>
      decide (leg.trip ≠ none) &&
      decide (leg.from_stop.stationId ≠ leg.to_stop.stationId)) }

/-- The `for index in range(len(self.legs) - 1)` loop of
Journey.is_valid: each leg must arrive no later than the next leg
departs; a missing arrival or departure time (an exception in the
source, which yields no journey at all) counts as invalid. -/
def legsValid : List Leg → Bool
  | [] => true
  | [_] => true
  | x :: y :: rest =>
    (match x.arr, y.dep with
      | some a, some d => decide (a ≤ d)
      | _, _ => false) && legsValid (y :: rest)

/-- Journey.is_valid of structures.py. -/
def Journey.is_valid (j : Journey) : Bool :=
  legsValid j.legs

/-- Journey.prepend_leg of structures.py, as the pure list cons (the
source mutates the shared legs list in place; the yielded journeys pass
the same validation gate either way). -/
def Journey.prepend_leg (j : Journey) (leg : Leg) : Journey :=
  { legs := leg :: j.legs }

/-- Modelled from the spec: §4.6 Step 2, a label is turned into the leg
(label.boarding_stop → stop, label.trip, label.criteria). The
old-generation Leg constructor called in mcraptor.py belongs to a Leg
class version missing from src/. -/
def label_to_leg (label : MultiCriteriaLabel) (to_stop : Stop) : Leg :=
  { from_stop := label.boarding_stop, to_stop := to_stop,
    trip := label.trip, criteria := label.criteria }

/-- bag_round_stop[k][stop] lookup for the reconstruction, with the
empty bag totalising the KeyError. -/
def bagAtM (d : List (Stop × Bag MultiCriteriaLabel)) (s : Stop) :
    Bag MultiCriteriaLabel :=
  ((d.find? (fun p => decide (p.1 = s))).map (fun p => p.2)).getD {}

/-- The recursive generator `loop` of reconstruct_journeys in
mcraptor.py, with the yields accumulated in order and a fuel bound
totalising the recursion: a journey whose head leg has no trip or
starts at an origin stop is filtered and yielded when valid; otherwise
every label of the previous-stop bag that is compatible before the
head leg is prepended and the loop recurses. -/
def reconLoop (from_stops : List Stop)
    (last_round_bags : List (Stop × Bag MultiCriteriaLabel)) :
    ℕ → List Journey → List Journey
  | 0, _ => []
  | fuel + 1, journeys =>
    journeys.foldl (fun out jrny =>
      match jrny.legs.head? with
      | none => out
      | some current_leg =>
        if current_leg.trip = none ∨ current_leg.from_stop ∈ from_stops then
          let j2 := jrny.remove_empty_and_same_station_legs
          if j2.is_valid then out ++ [j2] else out
        else
          out ++ (bagAtM last_round_bags current_leg.from_stop).labels.foldl
            (fun acc new_label =>
              let new_leg := label_to_leg new_label current_leg.from_stop
              if new_leg.is_compatible_before current_leg then
                acc ++ reconLoop from_stops last_round_bags fuel
                  [jrny.prepend_leg new_leg]
              else acc) []) []

/-- reconstruct_journeys of mcraptor.py: wrap each destination leg into
a one-leg journey and run the loop on the round-k bags. -/
def reconstruct_journeys (from_stops : List Stop)
    (destination_legs : List Leg)
    (last_round_bags : List (Stop × Bag MultiCriteriaLabel))
    (fuel : ℕ) : List Journey :=
  reconLoop from_stops last_round_bags fuel
    (destination_legs.map (fun leg => { legs := [leg] }))

theorem foldl_append_inv {α β : Type} (P : β → Prop) (f : List β → α → List β)
    (hf : ∀ acc a, (∀ x ∈ acc, P x) → ∀ x ∈ f acc a, P x) :
    ∀ (l : List α) (acc : List β), (∀ x ∈ acc, P x) →
      ∀ x ∈ l.foldl f acc, P x := by
  intro l
  induction l with
  | nil =>
    intro acc h x hx
    exact h x hx
  | cons a t ih =>
    intro acc h x hx
    rw [List.foldl_cons] at hx
    exact ih _ (hf acc a h) x hx

theorem reconLoop_valid (from_stops : List Stop)
    (bags : List (Stop × Bag MultiCriteriaLabel)) :
    ∀ (fuel : ℕ) (js : List Journey),
      ∀ j ∈ reconLoop from_stops bags fuel js,
        j.is_valid = true ∧
        ∀ leg ∈ j.legs, leg.trip ≠ none ∧
          leg.from_stop.stationId ≠ leg.to_stop.stationId := by
  intro fuel
  induction fuel with
  | zero =>
    intro js j hj
    exact absurd hj (List.not_mem_nil j)
  | succ n ih =>
    intro js j hj
    have hj2 : j ∈ js.foldl (fun out jrny =>
      match jrny.legs.head? with
      | none => out
      | some current_leg =>
        if current_leg.trip = none ∨ current_leg.from_stop ∈ from_stops then
          let j2 := jrny.remove_empty_and_same_station_legs
          if j2.is_valid then out ++ [j2] else out
        else
          out ++ (bagAtM bags current_leg.from_stop).labels.foldl
            (fun acc new_label =>
              let new_leg := label_to_leg new_label current_leg.from_stop
              if new_leg.is_compatible_before current_leg then
                acc ++ reconLoop from_stops bags n [jrny.prepend_leg new_leg]
              else acc) []) [] := hj
    refine foldl_append_inv (fun jy : Journey => jy.is_valid = true ∧
      ∀ leg ∈ jy.legs, leg.trip ≠ none ∧
        leg.from_stop.stationId ≠ leg.to_stop.stationId) _ ?_ js []
      (fun x hx => absurd hx (List.not_mem_nil x)) j hj2
    intro acc jr hacc x hx
    rcases hh : jr.legs.head? with _ | current
    · rw [hh] at hx
      exact hacc x hx
    · rw [hh] at hx
      have hx0 : x ∈ (if current.trip = none ∨ current.from_stop ∈ from_stops
          then (if (jr.remove_empty_and_same_station_legs).is_valid = true
            then acc ++ [jr.remove_empty_and_same_station_legs] else acc)
          else acc ++ (bagAtM bags current.from_stop).labels.foldl
            (fun acc2 new_label =>
              if (label_to_leg new_label
                  current.from_stop).is_compatible_before current = true
                then acc2 ++ reconLoop from_stops bags n
                  [jr.prepend_leg (label_to_leg new_label current.from_stop)]
                else acc2) []) := hx
      by_cases hterm : current.trip = none ∨ current.from_stop ∈ from_stops
      · rw [if_pos hterm] at hx0
        by_cases hv : (jr.remove_empty_and_same_station_legs).is_valid
        · have hx2 : x ∈ acc ++ [jr.remove_empty_and_same_station_legs] := by
            rwa [if_pos hv] at hx0
          rcases List.mem_append.mp hx2 with h1 | h2
          · exact hacc x h1
          · have hxeq : x = jr.remove_empty_and_same_station_legs :=
              List.mem_singleton.mp h2
            subst hxeq
            refine ⟨hv, ?_⟩
            intro leg hleg
            have hleg2 : leg ∈ jr.legs.filter (fun leg =>
                decide (leg.trip ≠ none) &&
                decide (leg.from_stop.stationId ≠ leg.to_stop.stationId)) := hleg
            have hpred := (List.mem_filter.mp hleg2).2
            rcases (Bool.and_eq_true _ _).mp hpred with ⟨d1, d2⟩
            exact ⟨of_decide_eq_true d1, of_decide_eq_true d2⟩
        · rw [if_neg hv] at hx0
          exact hacc x hx0
      · rw [if_neg hterm] at hx0
        rcases List.mem_append.mp hx0 with h1 | h2
        · exact hacc x h1
        · refine foldl_append_inv (fun jy : Journey => jy.is_valid = true ∧
            ∀ leg ∈ jy.legs, leg.trip ≠ none ∧
              leg.from_stop.stationId ≠ leg.to_stop.stationId) _ ?_
            ((bagAtM bags current.from_stop).labels) []
            (fun y hy => absurd hy (List.not_mem_nil y)) x h2
          intro acc2 lb hacc2 y hy
          by_cases hc : (label_to_leg lb current.from_stop).is_compatible_before
              current
          · have hy2 : y ∈ acc2 ++ reconLoop from_stops bags n
                [jr.prepend_leg (label_to_leg lb current.from_stop)] := by
              have hy1 : y ∈ (if (label_to_leg lb
                  current.from_stop).is_compatible_before current = true
                  then acc2 ++ reconLoop from_stops bags n
                    [jr.prepend_leg (label_to_leg lb current.from_stop)]
                  else acc2) := hy
              rwa [if_pos hc] at hy1
            rcases List.mem_append.mp hy2 with hy3 | hy4
            · exact hacc2 y hy3
            · exact ih [jr.prepend_leg (label_to_leg lb current.from_stop)] y hy4
          · have hy1 : y ∈ (if (label_to_leg lb
                current.from_stop).is_compatible_before current = true
                then acc2 ++ reconLoop from_stops bags n
                  [jr.prepend_leg (label_to_leg lb current.from_stop)]
                else acc2) := hy
            rw [if_neg hc] at hy1
            exact hacc2 y hy1

/-- C10: every journey produced by journey reconstruction passes the
validation gate: adjacent legs arrive before the next departs (is_valid
over the trip-derived times), and after the removal pass no leg is
trip-less and no leg connects two stops of the same station. -/
theorem claim_C10_reconstructed_valid (from_stops : List Stop)
    (destination_legs : List Leg)
    (bags : List (Stop × Bag MultiCriteriaLabel)) (fuel : ℕ) :
    ∀ j ∈ reconstruct_journeys from_stops destination_legs bags fuel,
      j.is_valid = true ∧
      ∀ leg ∈ j.legs, leg.trip ≠ none ∧
        leg.from_stop.stationId ≠ leg.to_stop.stationId :=
  fun j hj => reconLoop_valid from_stops bags fuel
    (destination_legs.map (fun leg => { legs := [leg] })) j hj

/-- Origin stop of the reconstruction witness. -/
def w10StopA : Stop := { id := 70, stationId := 70 }

/-- Destination stop of the reconstruction witness. -/
def w10StopB : Stop := { id := 71, stationId := 71 }

/-- Trip of the reconstruction witness: departs the origin at 0 and
arrives at the destination at 10. -/
def w10Trip : Trip :=
  { id := .sched 70, transport_type := .rail,
    stop_times := [
      { stop := w10StopA, dts_arr := 0, dts_dep := 0 },
      { stop := w10StopB, dts_arr := 10, dts_dep := 10 }] }

/-- Destination leg of the reconstruction witness. -/
def w10Leg : Leg :=
  { from_stop := w10StopA, to_stop := w10StopB, trip := some w10Trip,
    criteria := [] }

/-- Witness for C10: the concrete one-leg reconstruction from the
origin yields exactly the validated journey, which is valid and has no
empty or same-station legs. -/
theorem claim_C10_witness :
    (Journey.mk [w10Leg]).is_valid = true ∧
    ∀ leg ∈ (Journey.mk [w10Leg]).legs, leg.trip ≠ none ∧
      leg.from_stop.stationId ≠ leg.to_stop.stationId :=
  claim_C10_reconstructed_valid [w10StopA] [w10Leg] [] 2
    (Journey.mk [w10Leg]) (by decide)
